import Mathlib

/-!
Verification of the King County housing pipeline
(`src/data_cleaning.py`, `src/feature_engineering.py`, `src/pipeline.py`).

The pandas DataFrame is shallowly embedded as an association list from
column names to columns; a column carries its pandas dtype (`int64`,
`float64` or `object`) and a list of cells.  A cell is a numeric value,
a string, or the missing-value marker NaN (`Cell.na`).  The numeric
payload is abstracted over a linear ordered field: the cleaner and the
derivation steps are field-agnostic and are instantiated at `ℚ` (fully
executable) for claims about the cleaner, while the standardization
step of the feature engineer divides by a square root and therefore
lives at `ℝ`.

The row index of a DataFrame is not modelled: `reset_index(drop=True)`
is the identity here, and row order is the order of the cell lists.
-/

namespace Anneliese

/-- A single cell of a DataFrame column: a number, a string, or NaN. -/
inductive Cell (α : Type) where
  | num (x : α)
  | str (s : String)
  | na
  deriving DecidableEq

/-- The pandas dtypes that occur in this pipeline. -/
inductive DType where
  | i64
  | f64
  | obj
  deriving DecidableEq

/-- A DataFrame column: its dtype together with its cells (one per row). -/
structure Col (α : Type) where
  dt : DType
  cells : List (Cell α)
  deriving DecidableEq

/-- A DataFrame: an ordered association list from column names to columns. -/
abbrev Table (α : Type) := List (String × Col α)

/-- Column names used by the pipeline (kept as named constants). -/
def colBedrooms : String := "bedrooms"

def colPrice : String := "price"

def colSqftLiving : String := "sqft_living"

def colSqftAbove : String := "sqft_above"

def colSqftBasement : String := "sqft_basement"

def colYrBuilt : String := "yr_built"

def colYrSold : String := "yr_sold"

def colYrRenovated : String := "yr_renovated"

def colHouseAge : String := "house_age"

def colWasRenovated : String := "was_renovated"

def qmark : String := "?"

variable {α : Type}

/-- `n in df.columns`. -/
def hasCol (t : Table α) (n : String) : Bool :=
  t.any (fun p => p.1 = n)

/-- The first column named `n`, if any (`df[n]`). -/
def getCol? (t : Table α) (n : String) : Option (Col α) :=
  (t.find? (fun p => p.1 = n)).map (fun p => p.2)

/-- The cells of column `n` (empty when the column is absent). -/
def colCells (t : Table α) (n : String) : List (Cell α) :=
  ((getCol? t n).map Col.cells).getD []

/-- The dtype of column `n` (defaulting to `object` when absent). -/
def dtypeOf (t : Table α) (n : String) : DType :=
  ((getCol? t n).map Col.dt).getD .obj

/-- `df[n] = c`: overwrite the first column named `n` in place, or append
a new column at the end (pandas column-assignment semantics). -/
def setCol : Table α → String → Col α → Table α
  | [], n, c => [(n, c)]
  | (m, d) :: rest, n, c =>
      if m = n then (n, c) :: rest else (m, d) :: setCol rest n c

/-- Apply a function to every column, keeping names and order. -/
def mapCols (f : Col α → Col α) (t : Table α) : Table α :=
  t.map (fun p => (p.1, f p.2))

/-- Number of rows (length of the first column; 0 for an empty frame). -/
def nrows : Table α → Nat
  | [] => 0
  | (_, c) :: _ => c.cells.length

/-- Keep the cells whose position in `keep` holds `true`
(boolean-mask row selection). -/
def maskFilter : List Bool → List (Cell α) → List (Cell α)
  | b :: bs, c :: cs => if b then c :: maskFilter bs cs else maskFilter bs cs
  | _, _ => []

/-- `df[mask]`: apply one boolean row mask to every column. -/
def filterRows (keep : List Bool) (t : Table α) : Table α :=
  mapCols (fun c => ⟨c.dt, maskFilter keep c.cells⟩) t

/-- `cell == (n : int)` under pandas comparison semantics: only numeric
cells compare equal to a number; strings and NaN never do. -/
def cellEqInt [LinearOrderedField α] (c : Cell α) (n : Int) : Bool :=
  match c with
  | .num x => x = (n : α)
  | _ => false

/-- `pd.isna(cell)`. -/
def isNaCell : Cell α → Bool
  | .na => true
  | _ => false

section Cleaner

variable [LinearOrderedField α]

/-- Errors `clean_data` can raise: the `ValueError` from
`astype(float)` on a non-numeric `sqft_basement` entry, and the
`KeyError` from `dropna(subset=...)` when a subset column is absent. -/
inductive CleanErr where
  | basementNotFloat
  | missingCols (ms : List String)
  deriving DecidableEq

/-- Step 1 of `clean_data`:
`if 'bedrooms' in df.columns: df = df[df['bedrooms'] != 33]`. -/
def dropOutlier (t : Table α) : Table α :=
  if hasCol t colBedrooms then
    filterRows ((colCells t colBedrooms).map (fun c => !cellEqInt c 33)) t
  else t

/-- Replacement of one cell for `df.replace('?', np.nan)`. -/
def replaceCell : Cell α → Cell α
  | .str s => if s = qmark then .na else .str s
  | c => c

/-- Step 2 of `clean_data`: `df.replace('?', np.nan, inplace=True)`
(exact full-cell matches, any column; dtypes unchanged). -/
def replaceQm (t : Table α) : Table α :=
  mapCols (fun c => ⟨c.dt, c.cells.map replaceCell⟩) t

/-- All-digit check for the decimal parser. -/
def allDigits (cs : List Char) : Bool :=
  cs.all (fun ch => ch.isDigit)

/-- Numeric value of a digit string. -/
def digitsToNat (cs : List Char) : Nat :=
  cs.foldl (fun a ch => a * 10 + (ch.toNat - 48)) 0

/-- Parse an unsigned decimal literal (digits with an optional single
decimal point, at least one digit present). -/
def parseUnsigned? (cs : List Char) : Option ℚ :=
  match cs.splitOn '.' with
  | [w] => if w ≠ [] ∧ allDigits w then some (digitsToNat w) else none
  | [w, f] =>
      if (w ≠ [] ∨ f ≠ []) ∧ allDigits w ∧ allDigits f then
        some ((digitsToNat w : ℚ) + (digitsToNat f : ℚ) / (10 ^ f.length))
      else none
  | _ => none

/-- Model of Python `float(s)` on the forms occurring in the dataset:
optional surrounding whitespace, optional sign, decimal digits with an
optional decimal point.  Returns `none` when `float()` would raise. -/
def parseFloat? (s : String) : Option ℚ :=
  match s.trim.toList with
  | '-' :: rest => (parseUnsigned? rest).map (fun q => -q)
  | '+' :: rest => parseUnsigned? rest
  | cs => parseUnsigned? cs

/-- Coercion of one cell for `astype(float)`: numbers and NaN pass,
strings must parse as floats. -/
def coerceCell (c : Cell α) : Except CleanErr (Cell α) :=
  match c with
  | .num x => .ok (.num x)
  | .na => .ok .na
  | .str s =>
      match parseFloat? s with
      | some q => .ok (.num (q : α))
      | none => .error .basementNotFloat

/-- `astype(float)` over a list of cells, failing on the first
non-coercible entry. -/
def coerceCells : List (Cell α) → Except CleanErr (List (Cell α))
  | [] => .ok []
  | c :: cs =>
      match coerceCell c with
      | .error e => .error e
      | .ok c' =>
          match coerceCells cs with
          | .error e => .error e
          | .ok cs' => .ok (c' :: cs')

/-- A cell that makes `astype(float)` raise. -/
def badCell (c : Cell α) : Bool :=
  match c with
  | .str s => (parseFloat? s).isNone
  | _ => false

/-- Step 3 of `clean_data`:
`if 'sqft_basement' in df.columns: df['sqft_basement'] = df['sqft_basement'].astype(float)`. -/
def coerceBasement (t : Table α) : Except CleanErr (Table α) :=
  if hasCol t colSqftBasement then
    match coerceCells (colCells t colSqftBasement) with
    | .error e => .error e
    | .ok cs => .ok (setCol t colSqftBasement ⟨.f64, cs⟩)
  else .ok t

/-- Step 4 of `clean_data`:
`df.dropna(subset=['price', 'sqft_living'], inplace=True)`.
pandas raises a `KeyError` listing the subset labels that are not
columns of the frame; otherwise it drops every row in which either
subset column is NaN. -/
def dropnaPS (t : Table α) : Except CleanErr (Table α) :=
  let missing :=
    (if hasCol t colPrice then [] else [colPrice]) ++
      (if hasCol t colSqftLiving then [] else [colSqftLiving])
  if missing = [] then
    .ok (filterRows
      (List.zipWith (fun a b => !isNaCell a && !isNaCell b)
        (colCells t colPrice) (colCells t colSqftLiving)) t)
  else .error (.missingCols missing)

/-- `clean_data` from `src/data_cleaning.py`.  `df = df.copy()` is the
identity on table values (the aliasing it prevents is modelled
separately by the store semantics below); `reset_index(drop=True)` is
the identity because the row index is not modelled. -/
def clean_data (t : Table α) : Except CleanErr (Table α) :=
  match coerceBasement (replaceQm (dropOutlier t)) with
  | .error e => .error e
  | .ok t3 =>
      match dropnaPS t3 with
      | .error e => .error e
      | .ok t4 => .ok t4

end Cleaner

section FeatureEngineering

variable [LinearOrderedField α]

/-- Errors `add_features` can raise: the `TypeError` from arithmetic or
comparison on a string in an object column, and the `ValueError` from
`StandardScaler.fit` on a selection with zero features or zero samples. -/
inductive AErr where
  | typeErr
  | emptyFit
  deriving DecidableEq

/-- Elementwise subtraction of two cells, as pandas `-` on series:
numbers subtract, NaN propagates, a string raises `TypeError`. -/
def cellSub : Cell α → Cell α → Except AErr (Cell α)
  | .num a, .num b => .ok (.num (a - b))
  | .str _, _ => .error .typeErr
  | _, .str _ => .error .typeErr
  | _, _ => .ok .na

/-- `s1 - s2` over two cell lists (pairwise). -/
def subCells : List (Cell α) → List (Cell α) → Except AErr (List (Cell α))
  | a :: as, b :: bs =>
      match cellSub a b with
      | .error e => .error e
      | .ok c =>
          match subCells as bs with
          | .error e => .error e
          | .ok cs => .ok (c :: cs)
  | _, _ => .ok []

/-- Result dtype of series subtraction: `int64 - int64` is `int64`,
any `object` operand gives `object`, otherwise `float64`. -/
def subDtype : DType → DType → DType
  | .i64, .i64 => .i64
  | .obj, _ => .obj
  | _, .obj => .obj
  | _, _ => .f64

/-- `k - cell` for an integer scalar `k` (used by `2025 - df['yr_built']`). -/
def scalarSubCell (k : α) : Cell α → Except AErr (Cell α)
  | .num b => .ok (.num (k - b))
  | .na => .ok .na
  | .str _ => .error .typeErr

/-- Map a fallible cell function over a list, failing on the first error. -/
def exMap (f : Cell α → Except AErr (Cell α)) :
    List (Cell α) → Except AErr (List (Cell α))
  | [] => .ok []
  | c :: cs =>
      match f c with
      | .error e => .error e
      | .ok c' =>
          match exMap f cs with
          | .error e => .error e
          | .ok cs' => .ok (c' :: cs')

/-- Step 1 of `add_features`:
`if {'sqft_living','sqft_above'}.issubset(df.columns):
   df['sqft_basement'] = df['sqft_living'] - df['sqft_above']`. -/
def deriveBasement (t : Table α) : Except AErr (Table α) :=
  if hasCol t colSqftLiving && hasCol t colSqftAbove then
    match subCells (colCells t colSqftLiving) (colCells t colSqftAbove) with
    | .error e => .error e
    | .ok cs => .ok (setCol t colSqftBasement
        ⟨subDtype (dtypeOf t colSqftLiving) (dtypeOf t colSqftAbove), cs⟩)
  else .ok t

/-- Step 2 of `add_features`: `house_age` from `yr_sold - yr_built`,
falling back to `2025 - yr_built` when only `yr_built` exists. -/
def deriveAge (t : Table α) : Except AErr (Table α) :=
  if hasCol t colYrBuilt && hasCol t colYrSold then
    match subCells (colCells t colYrSold) (colCells t colYrBuilt) with
    | .error e => .error e
    | .ok cs => .ok (setCol t colHouseAge
        ⟨subDtype (dtypeOf t colYrSold) (dtypeOf t colYrBuilt), cs⟩)
  else if hasCol t colYrBuilt then
    match exMap (scalarSubCell 2025) (colCells t colYrBuilt) with
    | .error e => .error e
    | .ok cs => .ok (setCol t colHouseAge ⟨dtypeOf t colYrBuilt, cs⟩)
  else .ok t

/-- The lambda of step 3: `1 if x > 0 else 0`.  `NaN > 0` is false in
Python, giving 0; comparing a string with 0 raises `TypeError`. -/
def renovCell : Cell α → Except AErr (Cell α)
  | .num x => .ok (.num (if 0 < x then 1 else 0))
  | .na => .ok (.num 0)
  | .str _ => .error .typeErr

/-- Step 3 of `add_features`:
`if 'yr_renovated' in df.columns:
   df['was_renovated'] = df['yr_renovated'].apply(lambda x: 1 if x > 0 else 0)`
(the result is a series of Python ints, hence dtype `int64`). -/
def deriveRenov (t : Table α) : Except AErr (Table α) :=
  if hasCol t colYrRenovated then
    match exMap renovCell (colCells t colYrRenovated) with
    | .error e => .error e
    | .ok cs => .ok (setCol t colWasRenovated ⟨.i64, cs⟩)
  else .ok t

/-- Steps 1-3 of `add_features` in order. -/
def deriveAll (t : Table α) : Except AErr (Table α) :=
  match deriveBasement t with
  | .error e => .error e
  | .ok t1 =>
      match deriveAge t1 with
      | .error e => .error e
      | .ok t2 => deriveRenov t2

end FeatureEngineering

noncomputable section Scaling

/-- dtypes selected by `df.select_dtypes(include=['int64', 'float64'])`. -/
def isNumericDt : DType → Bool
  | .i64 => true
  | .f64 => true
  | .obj => false

/-- Names of the numeric columns, in table order. -/
def numericCols (t : Table ℝ) : List String :=
  (t.filter (fun p => isNumericDt p.2.dt)).map (fun p => p.1)

/-- The numeric entries of a column; NaNs are disregarded, as
`StandardScaler` does when fitting. -/
def numVals : List (Cell ℝ) → List ℝ
  | [] => []
  | .num x :: cs => x :: numVals cs
  | _ :: cs => numVals cs

/-- Mean of a list of reals (0 for the empty list, by `x / 0 = 0`). -/
def listMean (l : List ℝ) : ℝ := l.sum / l.length

/-- Population variance (ddof = 0), the variance `StandardScaler` fits. -/
def popVar (l : List ℝ) : ℝ :=
  ((l.map (fun x => (x - listMean l) ^ 2)).sum) / l.length

/-- `StandardScaler`'s per-column scale: the square root of the fitted
population variance, with exact zeros replaced by 1
(`_handle_zeros_in_scale`). -/
def scaleOf (l : List ℝ) : ℝ :=
  if popVar l = 0 then 1 else Real.sqrt (popVar l)

/-- Transform of one cell: `(x - mean) / scale`, NaN kept as NaN.
A string cell cannot occur in an `int64`/`float64` column; it is kept
unchanged to make the function total. -/
def scaleCellR (μ s : ℝ) : Cell ℝ → Cell ℝ
  | .num x => .num ((x - μ) / s)
  | .na => .na
  | .str v => .str v

/-- Per-column action of
`df[numeric_cols] = scaler.fit_transform(df[numeric_cols])`:
numeric columns are standardized in place (becoming `float64`),
all other columns are untouched. -/
def scaleColFn (c : Col ℝ) : Col ℝ :=
  if isNumericDt c.dt then
    ⟨.f64, c.cells.map
      (scaleCellR (listMean (numVals c.cells)) (scaleOf (numVals c.cells)))⟩
  else c

/-- Step 4 of `add_features`.  `StandardScaler.fit` raises when the
selection has no columns or no rows (`check_array` requires at least
one feature and one sample). -/
def scaleTable (t : Table ℝ) : Except AErr (Table ℝ) :=
  if (numericCols t).isEmpty || nrows t == 0 then .error .emptyFit
  else .ok (mapCols scaleColFn t)

/-- `add_features` from `src/feature_engineering.py`. -/
def add_features (t : Table ℝ) : Except AErr (Table ℝ) :=
  match deriveAll t with
  | .error e => .error e
  | .ok d => scaleTable d

end Scaling

noncomputable section PipelineAssembly

/-- Error type of the assembled pipeline: the failing stage's error. -/
inductive PErr where
  | cleaning (e : CleanErr)
  | featEng (e : AErr)
  deriving DecidableEq

/-- The cleaning stage as wrapped by
`FunctionTransformer(clean_data, validate=False)`. -/
def cleanStage (t : Table ℝ) : Except PErr (Table ℝ) :=
  (clean_data t).mapError .cleaning

/-- The feature-engineering stage as wrapped by
`FunctionTransformer(add_features, validate=False)`. -/
def augStage (t : Table ℝ) : Except PErr (Table ℝ) :=
  (add_features t).mapError .featEng

/-- `build_pipeline` from `src/pipeline.py`: the ordered list of stage
transforms `[('cleaning', clean_data), ('feature_engineering', add_features)]`. -/
def build_pipeline : List (Table ℝ → Except PErr (Table ℝ)) :=
  [cleanStage, augStage]

/-- `pipeline.transform`: sklearn feeds the data through each stage's
transform in list order, stopping at the first raised error. -/
def runPipeline (stages : List (Table ℝ → Except PErr (Table ℝ)))
    (t : Table ℝ) : Except PErr (Table ℝ) :=
  stages.foldl (fun acc f => acc.bind f) (.ok t)

/-- Modelled from the spec: `run(raw_table)` is
`augment(clean(raw_table))` - the Cleaner, then the Augmenter, with
no further transformation. -/
def run_spec (t : Table ℝ) : Except PErr (Table ℝ) :=
  match clean_data t with
  | .ok u => (add_features u).mapError .featEng
  | .error e => .error (.cleaning e)

end PipelineAssembly

section StoreSemantics

/-!
Python-level aliasing model.  A `Store` is the heap of live DataFrame
objects; a reference is an index into it.  Each stage first evaluates
`df = df.copy()`, allocating a fresh object; every subsequent
`inplace=True` call or column assignment mutates that fresh object
(`List.set` at its index), and every plain rebinding (`df = df[...]`)
allocates again.  The caller's object is only ever read.
-/

/-- The heap of DataFrame objects. -/
abbrev Store (α : Type) := List (Table α)

/-- Dereference: the table at index `r` (empty table when dangling). -/
def Store.read (σ : Store α) (r : Nat) : Table α :=
  σ.getD r []

/-- Heap semantics of `clean_data`: `df = df.copy()` allocates, the
`bedrooms` filter rebinds to a new allocation, and `replace`,
the `sqft_basement` assignment and `dropna(..., inplace=True)` mutate
the local object in place.  Returns the final store and the reference
to the result (or the raised error). -/
def clean_data_st [LinearOrderedField α] (σ : Store α) (r : Nat) :
    Store α × Except CleanErr Nat :=
  let c := σ.length
  let σ₁ := σ ++ [Store.read σ r]
  let σ₂ :=
    if hasCol (Store.read σ₁ c) colBedrooms then
      σ₁ ++ [dropOutlier (Store.read σ₁ c)]
    else σ₁
  let d := if hasCol (Store.read σ₁ c) colBedrooms then c + 1 else c
  let σ₃ := σ₂.set d (replaceQm (Store.read σ₂ d))
  match coerceBasement (Store.read σ₃ d) with
  | .error e => (σ₃, .error e)
  | .ok t₁ =>
    let σ₄ := σ₃.set d t₁
    match dropnaPS (Store.read σ₄ d) with
    | .error e => (σ₄, .error e)
    | .ok t₂ => (σ₄.set d t₂, .ok d)

/-- Heap semantics of `add_features`: `df = df.copy()` allocates, and
each column assignment (steps 1-4) mutates the fresh object in place. -/
noncomputable def add_features_st (σ : Store ℝ) (r : Nat) :
    Store ℝ × Except AErr Nat :=
  let c := σ.length
  let σ₁ := σ ++ [Store.read σ r]
  match deriveBasement (Store.read σ₁ c) with
  | .error e => (σ₁, .error e)
  | .ok t₁ =>
    let σ₂ := σ₁.set c t₁
    match deriveAge (Store.read σ₂ c) with
    | .error e => (σ₂, .error e)
    | .ok t₂ =>
      let σ₃ := σ₂.set c t₂
      match deriveRenov (Store.read σ₃ c) with
      | .error e => (σ₃, .error e)
      | .ok t₃ =>
        let σ₄ := σ₃.set c t₃
        match scaleTable (Store.read σ₄ c) with
        | .error e => (σ₄, .error e)
        | .ok t₄ => (σ₄.set c t₄, .ok c)

end StoreSemantics

section StoreLemmas

/-- Reads below the length of the left part ignore an appended suffix. -/
theorem read_append_left (σ τ : Store α) (r : Nat) (h : r < σ.length) :
    Store.read (σ ++ τ) r = Store.read σ r := by
  unfold Store.read
  simp [List.getD, List.getElem?_append, h]

/-- Writing at one index leaves reads at any other index unchanged. -/
theorem read_set_ne (σ : Store α) (i : Nat) (t : Table α) (r : Nat)
    (h : r ≠ i) : Store.read (σ.set i t) r = Store.read σ r := by
  unfold Store.read
  simp [List.getD, List.getElem?_set_ne (Ne.symm h)]

end StoreLemmas

section TableLemmas

theorem getCol?_mapCols (f : Col α → Col α) (t : Table α) (n : String) :
    getCol? (mapCols f t) n = (getCol? t n).map f := by
  induction t with
  | nil => rfl
  | cons p rest ih =>
      by_cases h : p.1 = n
      · simp [mapCols, getCol?, List.find?, h]
      · simpa [mapCols, getCol?, List.find?, h] using ih

theorem colCells_mapCols (f : Col α → Col α) (t : Table α) (n : String) :
    colCells (mapCols f t) n = ((getCol? t n).map (fun c => (f c).cells)).getD [] := by
  unfold colCells
  rw [getCol?_mapCols]
  cases getCol? t n <;> rfl

theorem hasCol_mapCols (f : Col α → Col α) (t : Table α) (n : String) :
    hasCol (mapCols f t) n = hasCol t n := by
  induction t with
  | nil => rfl
  | cons p rest ih => simp [mapCols, hasCol, List.any_cons] at ih ⊢; rw [ih]

theorem getCol?_setCol_self (t : Table α) (n : String) (c : Col α) :
    getCol? (setCol t n c) n = some c := by
  induction t with
  | nil => simp [setCol, getCol?, List.find?]
  | cons p rest ih =>
      by_cases h : p.1 = n
      · cases p with
        | mk m d => simp_all [setCol, getCol?, List.find?]
      · cases p with
        | mk m d => simp at h; simpa [setCol, getCol?, List.find?, h] using ih

theorem getCol?_setCol_ne (t : Table α) (m n : String) (c : Col α)
    (h : m ≠ n) : getCol? (setCol t m c) n = getCol? t n := by
  induction t with
  | nil => simp [setCol, getCol?, List.find?, h]
  | cons p rest ih =>
      cases p with
      | mk k d =>
          by_cases hk : k = m
          · simp [setCol, getCol?, List.find?, hk, h]
          · simp only [setCol, if_neg hk]
            by_cases hn : k = n
            · simp [getCol?, List.find?, hn]
            · simp only [getCol?, List.find?, hn, decide_eq_true_eq,
                decide_eq_false hn]
              exact ih

theorem colCells_setCol_ne (t : Table α) (m n : String) (c : Col α)
    (h : m ≠ n) : colCells (setCol t m c) n = colCells t n := by
  unfold colCells
  rw [getCol?_setCol_ne t m n c h]

theorem colCells_setCol_self (t : Table α) (n : String) (c : Col α) :
    colCells (setCol t n c) n = c.cells := by
  unfold colCells
  rw [getCol?_setCol_self]
  rfl


theorem maskFilter_self_filter (p : Cell α → Bool) (l : List (Cell α)) :
    maskFilter (l.map p) l = l.filter p := by
  induction l with
  | nil => rfl
  | cons c cs ih =>
      by_cases h : p c = true
      · simp [maskFilter, List.filter, h, ih]
      · simp at h; simp [maskFilter, List.filter, h, ih]

theorem mem_of_mem_maskFilter (keep : List Bool) (l : List (Cell α))
    (c : Cell α) (h : c ∈ maskFilter keep l) : c ∈ l := by
  induction keep generalizing l with
  | nil => simp [maskFilter] at h
  | cons b bs ih =>
      cases l with
      | nil => simp [maskFilter] at h
      | cons x xs =>
          by_cases hb : b = true
          · subst hb
            simp [maskFilter] at h
            rcases h with h | h
            · simp [h]
            · exact List.mem_cons_of_mem x (ih xs h)
          · simp at hb; subst hb
            simp [maskFilter] at h
            exact List.mem_cons_of_mem x (ih xs h)

theorem mem_setCol (t : Table α) (n : String) (c : Col α)
    (p : String × Col α) (h : p ∈ setCol t n c) : p ∈ t ∨ p = (n, c) := by
  induction t with
  | nil => simp [setCol] at h; simp [h]
  | cons q rest ih =>
      cases q with
      | mk k d =>
          by_cases hk : k = n
          · simp [setCol, hk] at h
            rcases h with h | h
            · simp [h]
            · left; exact List.mem_cons_of_mem _ h
          · simp [setCol, hk] at h
            rcases h with h | h
            · left; simp [h]
            · rcases ih h with h' | h'
              · left; exact List.mem_cons_of_mem _ h'
              · right; exact h'

theorem mem_mapCols (f : Col α → Col α) (t : Table α)
    (p : String × Col α) (h : p ∈ mapCols f t) :
    ∃ q ∈ t, p = (q.1, f q.2) := by
  unfold mapCols at h
  rcases List.mem_map.mp h with ⟨q, hq, rfl⟩
  exact ⟨q, hq, rfl⟩

theorem getCol?_isSome (t : Table α) (n : String) :
    (getCol? t n).isSome = hasCol t n := by
  induction t with
  | nil => rfl
  | cons p rest ih =>
      by_cases h : p.1 = n
      · simp [getCol?, hasCol, List.find?, List.any_cons, h]
      · simp [getCol?, hasCol, List.find?, List.any_cons, h] at ih ⊢
        exact ih

theorem hasCol_of_getCol? (t : Table α) (n : String) (c : Col α)
    (h : getCol? t n = some c) : hasCol t n = true := by
  rw [← getCol?_isSome, h]
  rfl

theorem exists_getCol?_of_hasCol (t : Table α) (n : String)
    (h : hasCol t n = true) : ∃ c, getCol? t n = some c := by
  rw [← getCol?_isSome] at h
  exact Option.isSome_iff_exists.mp h

theorem hasCol_setCol_of (t : Table α) (m n : String) (c : Col α)
    (h : hasCol t n = true) : hasCol (setCol t m c) n = true := by
  by_cases hmn : m = n
  · subst hmn
    exact hasCol_of_getCol? _ _ _ (getCol?_setCol_self t m c)
  · rcases exists_getCol?_of_hasCol t n h with ⟨c', hc'⟩
    refine hasCol_of_getCol? _ _ c' ?_
    rw [getCol?_setCol_ne t m n c hmn]
    exact hc'

end TableLemmas

section CleanerLemmas

variable [LinearOrderedField α]

theorem coerceCell_error_eq (c : Cell α) (e : CleanErr)
    (h : coerceCell c = .error e) : e = .basementNotFloat := by
  cases c with
  | num x => simp [coerceCell] at h
  | na => simp [coerceCell] at h
  | str s =>
      cases hp : parseFloat? s with
      | some q => simp [coerceCell, hp] at h
      | none => simp [coerceCell, hp] at h; exact h.symm

theorem badCell_iff_coerceCell_error (c : Cell α) :
    badCell c = true ↔ coerceCell c = .error CleanErr.basementNotFloat := by
  cases c with
  | num x => simp [badCell, coerceCell]
  | na => simp [badCell, coerceCell]
  | str s =>
      unfold badCell coerceCell
      cases hp : parseFloat? s <;> simp [hp, Option.isNone]

theorem coerceCell_ok_not_str (c c' : Cell α) (h : coerceCell c = .ok c') :
    ∀ s, c' ≠ .str s := by
  intro s
  cases c with
  | num x => simp [coerceCell] at h; simp [← h]
  | na => simp [coerceCell] at h; simp [← h]
  | str v =>
      cases hp : parseFloat? v with
      | some q => simp [coerceCell, hp] at h; simp [← h]
      | none => simp [coerceCell, hp] at h

theorem coerceCells_error_eq (l : List (Cell α)) (e : CleanErr)
    (h : coerceCells l = .error e) : e = .basementNotFloat := by
  induction l generalizing e with
  | nil => simp [coerceCells] at h
  | cons c cs ih =>
      unfold coerceCells at h
      cases hc : coerceCell c with
      | error e' =>
          rw [hc] at h
          simp at h
          rw [← h]
          exact coerceCell_error_eq c e' hc
      | ok c' =>
          rw [hc] at h
          cases hcs : coerceCells cs with
          | error e' =>
              rw [hcs] at h
              simp at h
              rw [← h]
              exact ih e' hcs
          | ok l' => rw [hcs] at h; simp at h

theorem coerceCells_error_iff (l : List (Cell α)) :
    coerceCells l = .error CleanErr.basementNotFloat ↔ l.any badCell = true := by
  induction l with
  | nil => simp [coerceCells]
  | cons c cs ih =>
      unfold coerceCells
      cases hc : coerceCell c with
      | error e =>
          have he := coerceCell_error_eq c e hc
          subst he
          simp [List.any_cons, (badCell_iff_coerceCell_error c).mpr hc]
      | ok c' =>
          have hb : badCell c = false := by
            cases hbc : badCell c
            · rfl
            · rw [(badCell_iff_coerceCell_error c).mp hbc] at hc; cases hc
          cases hcs : coerceCells cs with
          | error e =>
              have he := coerceCells_error_eq cs e hcs
              subst he
              simp [List.any_cons, hb, ih.mp hcs]
          | ok l' =>
              have hany : cs.any badCell = false := by
                cases h' : cs.any badCell
                · rfl
                · rw [ih.mpr h'] at hcs; cases hcs
              simp [List.any_cons, hb, hany]

theorem coerceCells_ok_not_str (l l' : List (Cell α))
    (h : coerceCells l = .ok l') : ∀ s, Cell.str s ∉ l' := by
  induction l generalizing l' with
  | nil => simp [coerceCells] at h; subst h; intro s; simp
  | cons c cs ih =>
      unfold coerceCells at h
      cases hc : coerceCell c with
      | error e => rw [hc] at h; simp at h
      | ok c' =>
          rw [hc] at h
          cases hcs : coerceCells cs with
          | error e => rw [hcs] at h; simp at h
          | ok l'' =>
              rw [hcs] at h
              simp at h
              intro s hmem
              rw [← h] at hmem
              rcases List.mem_cons.mp hmem with h' | h'
              · exact coerceCell_ok_not_str c c' hc s h'.symm
              · exact ih l'' hcs s h'

/-- Inversion of a successful `coerceBasement`. -/
theorem coerceBasement_ok_inv (t u : Table α)
    (h : coerceBasement t = .ok u) :
    (hasCol t colSqftBasement = false ∧ u = t) ∨
      (hasCol t colSqftBasement = true ∧
        ∃ cs, coerceCells (colCells t colSqftBasement) = .ok cs ∧
          u = setCol t colSqftBasement ⟨.f64, cs⟩) := by
  unfold coerceBasement at h
  cases hb : hasCol t colSqftBasement with
  | false => rw [hb] at h; simp at h; exact Or.inl ⟨rfl, h.symm⟩
  | true =>
      rw [hb] at h
      simp only [if_true] at h
      cases hc : coerceCells (colCells t colSqftBasement) with
      | error e => rw [hc] at h; simp at h
      | ok cs =>
          rw [hc] at h
          simp at h
          exact Or.inr ⟨rfl, cs, rfl, h.symm⟩

/-- Inversion of a successful `dropnaPS`. -/
theorem dropnaPS_ok_inv (t u : Table α) (h : dropnaPS t = .ok u) :
    hasCol t colPrice = true ∧ hasCol t colSqftLiving = true ∧
      u = filterRows
        (List.zipWith (fun a b => !isNaCell a && !isNaCell b)
          (colCells t colPrice) (colCells t colSqftLiving)) t := by
  unfold dropnaPS at h
  cases hp : hasCol t colPrice with
  | false => rw [hp] at h; cases hl : hasCol t colSqftLiving <;>
      rw [hl] at h <;> simp at h
  | true =>
      cases hl : hasCol t colSqftLiving with
      | false => rw [hp, hl] at h; simp at h
      | true =>
          rw [hp, hl] at h
          simp at h
          exact ⟨rfl, rfl, h.symm⟩

/-- `dropnaPS` never raises the coercion error. -/
theorem dropnaPS_error_ne_basement (t : Table α)
    (h : dropnaPS t = .error CleanErr.basementNotFloat) : False := by
  unfold dropnaPS at h
  cases hp : hasCol t colPrice <;> cases hl : hasCol t colSqftLiving <;>
    rw [hp, hl] at h <;> simp at h

/-- Inversion of a successful `clean_data` into its stages. -/
theorem clean_data_ok_inv (t out : Table α) (h : clean_data t = .ok out) :
    ∃ u, coerceBasement (replaceQm (dropOutlier t)) = .ok u ∧
      dropnaPS u = .ok out := by
  unfold clean_data at h
  cases hc : coerceBasement (replaceQm (dropOutlier t)) with
  | error e => rw [hc] at h; simp at h
  | ok u =>
      rw [hc] at h
      simp only [] at h
      cases hd : dropnaPS u with
      | error e => rw [hd] at h; simp at h
      | ok v =>
          rw [hd] at h
          simp at h
          exact ⟨u, rfl, by rw [hd, h]⟩

/-- A column's cells when its lookup is known. -/
theorem colCells_of_getCol? (t : Table α) (n : String) (c0 : Col α)
    (hg : getCol? t n = some c0) : colCells t n = c0.cells := by
  unfold colCells
  rw [hg]
  rfl

/-- An absent column has no cells. -/
theorem colCells_of_not_hasCol (t : Table α) (n : String)
    (h : hasCol t n = false) : colCells t n = [] := by
  unfold colCells
  cases hg : getCol? t n with
  | none => rfl
  | some c => rw [hasCol_of_getCol? t n c hg] at h; cases h

theorem cellEqInt_replaceCell (c : Cell α) (n : Int) :
    cellEqInt (replaceCell c) n = cellEqInt c n := by
  cases c with
  | num x => rfl
  | na => rfl
  | str s => by_cases h : s = qmark <;> simp [replaceCell, cellEqInt, h]

/-- Invariant for C7: no cell of the `bedrooms` column equals 33
(trivially true when the column is absent). -/
def BedOk (t : Table α) : Prop :=
  ∀ c ∈ colCells t colBedrooms, cellEqInt c 33 = false

theorem bedOk_dropOutlier (t : Table α) : BedOk (dropOutlier t) := by
  intro c hc
  unfold dropOutlier at hc
  cases hb : hasCol t colBedrooms with
  | false =>
      rw [hb] at hc
      simp at hc
      rw [colCells_of_not_hasCol t colBedrooms hb] at hc
      simp at hc
  | true =>
      rw [hb] at hc
      simp only [if_true] at hc
      rcases exists_getCol?_of_hasCol t colBedrooms hb with ⟨c0, hg⟩
      unfold filterRows at hc
      rw [colCells_mapCols, hg] at hc
      rw [colCells_of_getCol? t colBedrooms c0 hg] at hc
      simp only [Option.map, Option.getD] at hc
      rw [maskFilter_self_filter] at hc
      have := List.of_mem_filter hc
      simpa using this

theorem bedOk_replaceQm (t : Table α) (h : BedOk t) : BedOk (replaceQm t) := by
  intro c hc
  unfold replaceQm at hc
  rw [colCells_mapCols] at hc
  cases hg : getCol? t colBedrooms with
  | none => rw [hg] at hc; simp at hc
  | some c0 =>
      rw [hg] at hc
      simp only [Option.map, Option.getD] at hc
      rcases List.mem_map.mp hc with ⟨c1, hc1, rfl⟩
      rw [cellEqInt_replaceCell]
      exact h c1 ((colCells_of_getCol? t colBedrooms c0 hg) ▸ hc1)

theorem bedOk_setCol_ne (t : Table α) (m : String) (c : Col α)
    (h : BedOk t) (hm : m ≠ colBedrooms) : BedOk (setCol t m c) := by
  intro c' hc'
  rw [colCells_setCol_ne t m colBedrooms c hm] at hc'
  exact h c' hc'

theorem bedOk_filterRows (keep : List Bool) (t : Table α)
    (h : BedOk t) : BedOk (filterRows keep t) := by
  intro c hc
  unfold filterRows at hc
  rw [colCells_mapCols] at hc
  cases hg : getCol? t colBedrooms with
  | none => rw [hg] at hc; simp at hc
  | some c0 =>
      rw [hg] at hc
      simp only [Option.map, Option.getD] at hc
      have hmem := mem_of_mem_maskFilter keep c0.cells c hc
      exact h c ((colCells_of_getCol? t colBedrooms c0 hg) ▸ hmem)

/-- Invariant for C8: no cell anywhere in the table is the literal
placeholder string. -/
def NoQm (t : Table α) : Prop :=
  ∀ p ∈ t, ∀ c ∈ (p.2 : Col α).cells, c ≠ Cell.str qmark

theorem replaceCell_ne_qmark (c : Cell α) :
    replaceCell c ≠ Cell.str qmark := by
  cases c with
  | num x => simp [replaceCell]
  | na => simp [replaceCell]
  | str s => by_cases h : s = qmark <;> simp [replaceCell, h]

theorem noQm_replaceQm (t : Table α) : NoQm (replaceQm t) := by
  intro p hp c hc
  rcases mem_mapCols _ t p hp with ⟨q, _, rfl⟩
  simp only at hc
  rcases List.mem_map.mp hc with ⟨c1, _, rfl⟩
  exact replaceCell_ne_qmark c1

theorem noQm_setCol (t : Table α) (n : String) (c0 : Col α)
    (h : NoQm t) (h0 : ∀ c ∈ c0.cells, c ≠ Cell.str qmark) :
    NoQm (setCol t n c0) := by
  intro p hp c hc
  rcases mem_setCol t n c0 p hp with hmem | rfl
  · exact h p hmem c hc
  · exact h0 c hc

theorem noQm_filterRows (keep : List Bool) (t : Table α)
    (h : NoQm t) : NoQm (filterRows keep t) := by
  intro p hp c hc
  unfold filterRows at hp
  rcases mem_mapCols _ t p hp with ⟨q, hq, rfl⟩
  simp only at hc
  exact h q hq c (mem_of_mem_maskFilter keep q.2.cells c hc)

end CleanerLemmas

section ClaimC7

/-- C7: For every input table, no row of the table returned by `clean`
has `bedrooms` equal to 33: every cell of the output's `bedrooms`
column fails the exact-equality comparison with 33 that the filter
`df['bedrooms'] != 33` uses. -/
theorem C7_clean_no_bedrooms_33 (t out : Table ℚ)
    (h : clean_data t = .ok out) :
    ∀ c ∈ colCells out colBedrooms, cellEqInt c 33 = false := by
  rcases clean_data_ok_inv t out h with ⟨u, hc, hd⟩
  have h2 : BedOk (replaceQm (dropOutlier t)) :=
    bedOk_replaceQm _ (bedOk_dropOutlier t)
  have h3 : BedOk u := by
    rcases coerceBasement_ok_inv _ u hc with ⟨_, rfl⟩ | ⟨_, cs, _, rfl⟩
    · exact h2
    · exact bedOk_setCol_ne _ _ _ h2 (by decide)
  rcases dropnaPS_ok_inv u out hd with ⟨_, _, rfl⟩
  exact bedOk_filterRows _ _ h3

/-- Input table for the C7 witness: one `bedrooms = 33` row and one
ordinary row. -/
def c7In : Table ℚ :=
  [(colBedrooms, ⟨.i64, [.num 33, .num 3]⟩),
   (colPrice, ⟨.f64, [.num 1, .num 2]⟩),
   (colSqftLiving, ⟨.f64, [.num 10, .num 20]⟩)]

/-- Output of `clean_data` on `c7In`: the outlier row is dropped. -/
def c7Out : Table ℚ :=
  [(colBedrooms, ⟨.i64, [.num 3]⟩),
   (colPrice, ⟨.f64, [.num 2]⟩),
   (colSqftLiving, ⟨.f64, [.num 20]⟩)]

/-- Witness for C7 at a concrete table. -/
theorem C7_witness :
    clean_data c7In = .ok c7Out ∧
      ∀ c ∈ colCells c7Out colBedrooms, cellEqInt c 33 = false :=
  ⟨rfl, C7_clean_no_bedrooms_33 c7In c7Out rfl⟩

end ClaimC7

section ClaimC8

/-- C8: For every input table, no cell of the table returned by `clean`
equals the literal placeholder string `"?"`: the replacement step turns
every occurrence, in any column, into NaN before type coercion, and no
later step reintroduces it. -/
theorem C8_clean_no_placeholder (t out : Table ℚ)
    (h : clean_data t = .ok out) :
    ∀ p ∈ out, ∀ c ∈ (p.2 : Col ℚ).cells, c ≠ Cell.str qmark := by
  rcases clean_data_ok_inv t out h with ⟨u, hc, hd⟩
  have h2 : NoQm (replaceQm (dropOutlier t)) := noQm_replaceQm _
  have h3 : NoQm u := by
    rcases coerceBasement_ok_inv _ u hc with ⟨_, rfl⟩ | ⟨_, cs, hcs, rfl⟩
    · exact h2
    · refine noQm_setCol _ _ _ h2 ?_
      intro c hmem he
      subst he
      exact coerceCells_ok_not_str _ cs hcs qmark hmem
  rcases dropnaPS_ok_inv u out hd with ⟨_, _, rfl⟩
  exact noQm_filterRows _ _ h3

/-- Input table for the C8 witness: a `"?"` placeholder in an object
column. -/
def c8In : Table ℚ :=
  [(colPrice, ⟨.f64, [.num 1]⟩),
   (colSqftLiving, ⟨.f64, [.num 2]⟩),
   (colYrRenovated, ⟨.obj, [.str qmark]⟩)]

/-- Output of `clean_data` on `c8In`: the placeholder became NaN. -/
def c8Out : Table ℚ :=
  [(colPrice, ⟨.f64, [.num 1]⟩),
   (colSqftLiving, ⟨.f64, [.num 2]⟩),
   (colYrRenovated, ⟨.obj, [.na]⟩)]

/-- Witness for C8 at a concrete table. -/
theorem C8_witness :
    clean_data c8In = .ok c8Out ∧
      ∀ p ∈ c8Out, ∀ c ∈ (p.2 : Col ℚ).cells, c ≠ Cell.str qmark :=
  ⟨rfl, C8_clean_no_placeholder c8In c8Out rfl⟩

end ClaimC8

section HasColPreservation

variable [LinearOrderedField α]

theorem hasCol_filterRows (keep : List Bool) (t : Table α) (n : String) :
    hasCol (filterRows keep t) n = hasCol t n := by
  unfold filterRows
  exact hasCol_mapCols _ t n

theorem hasCol_dropOutlier (t : Table α) (n : String) :
    hasCol (dropOutlier t) n = hasCol t n := by
  unfold dropOutlier
  cases hb : hasCol t colBedrooms with
  | false => simp
  | true => simp only [if_true]; exact hasCol_filterRows _ t n

theorem hasCol_replaceQm (t : Table α) (n : String) :
    hasCol (replaceQm t) n = hasCol t n := by
  unfold replaceQm
  exact hasCol_mapCols _ t n

theorem coerceBasement_error_inv (t : Table α) (e : CleanErr)
    (h : coerceBasement t = .error e) :
    hasCol t colSqftBasement = true ∧
      coerceCells (colCells t colSqftBasement) = .error e := by
  unfold coerceBasement at h
  cases hb : hasCol t colSqftBasement with
  | false => rw [hb] at h; simp at h
  | true =>
      rw [hb] at h
      simp only [if_true] at h
      cases hc : coerceCells (colCells t colSqftBasement) with
      | error e' =>
          rw [hc] at h
          simp at h
          subst h
          exact ⟨rfl, rfl⟩
      | ok cs => rw [hc] at h; simp at h

theorem dropnaPS_ok_of (t : Table α) (hp : hasCol t colPrice = true)
    (hl : hasCol t colSqftLiving = true) : ∃ v, dropnaPS t = .ok v := by
  unfold dropnaPS
  rw [hp, hl]
  simp

end HasColPreservation

section ClaimC6

/-- C6: `clean` fails with the type error from `astype(float)` if and
only if, after the placeholder replacement of step 2 (applied to the
already bedroom-filtered frame), the `sqft_basement` column is present
and still contains a value `float()` cannot parse.  The only other
failure of `clean` is the `KeyError` of step 4, a different error. -/
theorem C6_clean_type_error_iff (t : Table ℚ) :
    clean_data t = .error CleanErr.basementNotFloat ↔
      (hasCol (replaceQm (dropOutlier t)) colSqftBasement = true ∧
        (colCells (replaceQm (dropOutlier t)) colSqftBasement).any badCell
          = true) := by
  constructor
  · intro h
    unfold clean_data at h
    cases hc : coerceBasement (replaceQm (dropOutlier t)) with
    | error e =>
        rw [hc] at h
        simp at h
        rw [h] at hc
        rcases coerceBasement_error_inv _ _ hc with ⟨hb, hcc⟩
        exact ⟨hb, (coerceCells_error_iff _).mp hcc⟩
    | ok u =>
        rw [hc] at h
        simp only [] at h
        cases hd : dropnaPS u with
        | error e =>
            rw [hd] at h
            simp at h
            rw [h] at hd
            exact absurd hd (fun hd => dropnaPS_error_ne_basement u hd)
        | ok v => rw [hd] at h; simp at h
  · rintro ⟨hb, hbad⟩
    have hcc : coerceCells (colCells (replaceQm (dropOutlier t))
        colSqftBasement) = .error CleanErr.basementNotFloat :=
      (coerceCells_error_iff _).mpr hbad
    unfold clean_data coerceBasement
    rw [hb]
    simp only [if_true]
    rw [hcc]

end ClaimC6

section ClaimC2

/-- Counterexample for C2 as stated: on the empty table (which has
"zero or more of the known columns" and in particular lacks `price`
and `sqft_living`), `clean` does not succeed - the unguarded
`df.dropna(subset=['price', 'sqft_living'])` raises a `KeyError`. -/
theorem C2_counterexample :
    clean_data ([] : Table ℚ) =
      .error (CleanErr.missingCols [colPrice, colSqftLiving]) := rfl

/-- C2 (amended): `clean` succeeds on every table in which `price` and
`sqft_living` are both present and the (filtered, placeholder-replaced)
`sqft_basement` column contains no non-coercible value; the
bedroom-filter and basement-coercion steps are skipped without failure
when their columns are absent, but step 4 requires `price` and
`sqft_living` unconditionally. -/
theorem C2_clean_ok_when_critical_present (t : Table ℚ)
    (hp : hasCol t colPrice = true) (hl : hasCol t colSqftLiving = true)
    (hgood : (colCells (replaceQm (dropOutlier t)) colSqftBasement).any
        badCell = false) :
    ∃ out, clean_data t = .ok out := by
  have hup : hasCol (replaceQm (dropOutlier t)) colPrice = true := by
    rw [hasCol_replaceQm, hasCol_dropOutlier]; exact hp
  have hul : hasCol (replaceQm (dropOutlier t)) colSqftLiving = true := by
    rw [hasCol_replaceQm, hasCol_dropOutlier]; exact hl
  unfold clean_data
  cases hc : coerceBasement (replaceQm (dropOutlier t)) with
  | error e =>
      rcases coerceBasement_error_inv _ _ hc with ⟨_, hcc⟩
      have he := coerceCells_error_eq _ _ hcc
      subst he
      rw [(coerceCells_error_iff _).mp hcc] at hgood
      cases hgood
  | ok u =>
      have hupr : hasCol u colPrice = true := by
        rcases coerceBasement_ok_inv _ u hc with ⟨_, rfl⟩ | ⟨_, cs, _, rfl⟩
        · exact hup
        · exact hasCol_setCol_of _ _ _ _ hup
      have hulr : hasCol u colSqftLiving = true := by
        rcases coerceBasement_ok_inv _ u hc with ⟨_, rfl⟩ | ⟨_, cs, _, rfl⟩
        · exact hul
        · exact hasCol_setCol_of _ _ _ _ hul
      rcases dropnaPS_ok_of u hupr hulr with ⟨v, hv⟩
      exact ⟨v, by simp [hv]⟩

/-- Input table for the C2 witness. -/
def c2In : Table ℚ :=
  [(colPrice, ⟨.f64, [.num 1]⟩), (colSqftLiving, ⟨.f64, [.num 2]⟩)]

/-- Witness for the amended C2 at a concrete table. -/
theorem C2_witness :
    hasCol c2In colPrice = true ∧ hasCol c2In colSqftLiving = true ∧
      ∃ out, clean_data c2In = .ok out :=
  ⟨rfl, rfl, C2_clean_ok_when_critical_present c2In rfl rfl (by decide)⟩

end ClaimC2

theorem clean_data_st_preserves [LinearOrderedField α] (σ : Store α) (r : Nat)
    (hr : r < σ.length) :
    Store.read (clean_data_st σ r).1 r = Store.read σ r := by
  simp only [clean_data_st]
  set σ₁ := σ ++ [Store.read σ r] with hσ₁
  have hl₁ : σ₁.length = σ.length + 1 := by simp [hσ₁]
  have hre₁ : Store.read σ₁ r = Store.read σ r := read_append_left σ _ r hr
  by_cases hb : hasCol (Store.read σ₁ σ.length) colBedrooms
  · simp only [hb, if_true]
    set σ₂ := σ₁ ++ [dropOutlier (Store.read σ₁ σ.length)] with hσ₂
    have hre₂ : Store.read σ₂ r = Store.read σ r := by
      rw [hσ₂, read_append_left σ₁ _ r (by omega)]
      exact hre₁
    set d : Nat := σ.length + 1 with hd
    have hrd : r ≠ d := by omega
    set σ₃ := σ₂.set d (replaceQm (Store.read σ₂ d)) with hσ₃
    have hre₃ : Store.read σ₃ r = Store.read σ r := by
      rw [hσ₃, read_set_ne σ₂ d _ r hrd]
      exact hre₂
    split
    · exact hre₃
    · rename_i t₁ hcb
      split
      · rw [read_set_ne σ₃ d _ r hrd]
        exact hre₃
      · rename_i t₂ hdn
        rw [read_set_ne (σ₃.set d t₁) d _ r hrd, read_set_ne σ₃ d _ r hrd]
        exact hre₃
  · rw [Bool.not_eq_true] at hb
    simp only [hb, Bool.false_eq_true, if_false]
    set d : Nat := σ.length with hd
    have hrd : r ≠ d := by omega
    set σ₃ := σ₁.set d (replaceQm (Store.read σ₁ d)) with hσ₃
    have hre₃ : Store.read σ₃ r = Store.read σ r := by
      rw [hσ₃, read_set_ne σ₁ d _ r hrd]
      exact hre₁
    split
    · exact hre₃
    · rename_i t₁ hcb
      split
      · rw [read_set_ne σ₃ d _ r hrd]
        exact hre₃
      · rename_i t₂ hdn
        rw [read_set_ne (σ₃.set d t₁) d _ r hrd, read_set_ne σ₃ d _ r hrd]
        exact hre₃

theorem add_features_st_preserves (τ : Store ℝ) (s : Nat)
    (hs : s < τ.length) :
    Store.read (add_features_st τ s).1 s = Store.read τ s := by
  simp only [add_features_st]
  set τ₁ := τ ++ [Store.read τ s] with hτ₁
  have hre₁ : Store.read τ₁ s = Store.read τ s := read_append_left τ _ s hs
  set c : Nat := τ.length with hc
  have hsc : s ≠ c := by omega
  split
  · exact hre₁
  · rename_i t₁ h1
    split
    · rw [read_set_ne τ₁ c _ s hsc]
      exact hre₁
    · rename_i t₂ h2
      split
      · rw [read_set_ne (τ₁.set c t₁) c _ s hsc, read_set_ne τ₁ c _ s hsc]
        exact hre₁
      · rename_i t₃ h3
        split
        · rw [read_set_ne ((τ₁.set c t₁).set c t₂) c _ s hsc,
            read_set_ne (τ₁.set c t₁) c _ s hsc, read_set_ne τ₁ c _ s hsc]
          exact hre₁
        · rename_i t₄ h4
          rw [read_set_ne (((τ₁.set c t₁).set c t₂).set c t₃) c _ s hsc,
            read_set_ne ((τ₁.set c t₁).set c t₂) c _ s hsc,
            read_set_ne (τ₁.set c t₁) c _ s hsc, read_set_ne τ₁ c _ s hsc]
          exact hre₁

/-- C9: Neither stage mutates its input: under the heap semantics in
which `df = df.copy()` allocates and every in-place pandas call writes
to the fresh object, the caller's table is unchanged after running
either `clean_data` or `add_features`. -/
theorem C9_stages_preserve_caller (σ : Store ℚ) (τ : Store ℝ) (r s : Nat)
    (hr : r < σ.length) (hs : s < τ.length) :
    Store.read (clean_data_st σ r).1 r = Store.read σ r ∧
      Store.read (add_features_st τ s).1 s = Store.read τ s :=
  ⟨clean_data_st_preserves σ r hr, add_features_st_preserves τ s hs⟩

/-- Witness for C9 at concrete one-table heaps. -/
theorem C9_witness :
    Store.read (clean_data_st [c7In] 0).1 0 = Store.read [c7In] 0 ∧
      Store.read (add_features_st
        [[(colSqftLiving, ⟨.f64, [.num 7]⟩)]] 0).1 0 =
        Store.read [[(colSqftLiving, ⟨.f64, [.num 7]⟩)]] 0 :=
  C9_stages_preserve_caller [c7In] [[(colSqftLiving, ⟨.f64, [.num 7]⟩)]]
    0 0 (by simp) (by simp)

section ClaimC1

/-- C1: For every input table, the assembled pipeline's transform
equals applying the Cleaner and then the Augmenter, with no further
transformation by the assembler: `runPipeline build_pipeline` coincides
with the spec-side composition `run_spec`. -/
theorem C1_pipeline_equals_composition (t : Table ℝ) :
    runPipeline build_pipeline t = run_spec t := by
  unfold runPipeline build_pipeline run_spec cleanStage augStage
  cases h : clean_data t with
  | ok u => simp [List.foldl, h, Except.mapError, Except.bind]
  | error e => simp [List.foldl, h, Except.mapError, Except.bind]

end ClaimC1

section ClaimC10

/-- Input table for C10: a single `object`-dtype `yr_renovated` column
holding a Python int - the table contains no `int64` or `float64`
column. -/
def c10In : Table ℝ := [(colYrRenovated, ⟨.obj, [.num 1]⟩)]

/-- Counterexample for C10 as stated: `c10In` has no integer or float
column, yet `add_features` succeeds instead of raising - step 3
derives an `int64` `was_renovated` column from the object-dtype
`yr_renovated`, so the scaler's selection is non-empty. -/
theorem C10_counterexample :
    numericCols c10In = [] ∧ ∃ out, add_features c10In = .ok out := by
  constructor
  · rfl
  · have h1 : renovCell (Cell.num (1 : ℝ)) = .ok (.num 1) := by
      unfold renovCell
      norm_num
    have h4 : exMap renovCell [Cell.num (1 : ℝ)] = .ok [.num 1] := by
      simp only [exMap, h1]
    have h5 : deriveRenov c10In = .ok
        [(colYrRenovated, ⟨.obj, [.num 1]⟩),
         (colWasRenovated, ⟨.i64, [.num 1]⟩)] := by
      unfold deriveRenov
      rw [show colCells c10In colYrRenovated = [Cell.num (1 : ℝ)] from rfl]
      rw [h4]
      rfl
    have hd : deriveAll c10In = .ok
        [(colYrRenovated, ⟨.obj, [.num 1]⟩),
         (colWasRenovated, ⟨.i64, [.num 1]⟩)] := by
      simp only [deriveAll, show deriveBasement c10In = .ok c10In from rfl,
        show deriveAge c10In = .ok c10In from rfl, h5]
    exact ⟨mapCols scaleColFn
        [(colYrRenovated, ⟨.obj, [.num 1]⟩),
         (colWasRenovated, ⟨.i64, [.num 1]⟩)],
      by simp only [add_features, hd]; rfl⟩

/-- C10 (amended): the standardization step is not gated on any
column-existence check - whenever the derivation steps succeed but
still leave no `int64`/`float64` column, `add_features` raises the
scaler's error on an empty column selection instead of returning the
table unchanged.  (A `yr_renovated` column defeats the original
statement, since the derived `was_renovated` is always `int64`.) -/
theorem C10_scaler_error_when_no_numeric (t d : Table ℝ)
    (hd : deriveAll t = .ok d) (hnc : numericCols d = []) :
    add_features t = .error AErr.emptyFit := by
  simp only [add_features, hd]
  unfold scaleTable
  rw [hnc]
  rfl

/-- Witness for the amended C10: a table with a single string column. -/
theorem C10_witness :
    deriveAll [(colPrice, (⟨.obj, [.str colPrice]⟩ : Col ℝ))] =
        .ok [(colPrice, ⟨.obj, [.str colPrice]⟩)] ∧
      numericCols [(colPrice, (⟨.obj, [.str colPrice]⟩ : Col ℝ))] = [] ∧
      add_features [(colPrice, (⟨.obj, [.str colPrice]⟩ : Col ℝ))] =
        .error AErr.emptyFit :=
  ⟨rfl, rfl, C10_scaler_error_when_no_numeric _ _ rfl rfl⟩

end ClaimC10

section DeriveLemmas

variable [LinearOrderedField α]

theorem subCells_ok_getElem (as bs cs : List (Cell α))
    (h : subCells as bs = .ok cs) (i : Nat) (x y : α)
    (ha : as[i]? = some (.num x)) (hb : bs[i]? = some (.num y)) :
    cs[i]? = some (.num (x - y)) := by
  induction as generalizing bs cs i with
  | nil => simp at ha
  | cons a as ih =>
      cases bs with
      | nil => simp at hb
      | cons b bs =>
          unfold subCells at h
          cases hc : cellSub a b with
          | error e => rw [hc] at h; simp at h
          | ok c =>
              rw [hc] at h
              cases hcs : subCells as bs with
              | error e => rw [hcs] at h; simp at h
              | ok cs' =>
                  rw [hcs] at h
                  simp at h
                  subst h
                  cases i with
                  | zero =>
                      simp at ha hb
                      subst ha
                      subst hb
                      simp only [cellSub] at hc
                      simp at hc
                      simp [← hc]
                  | succ n =>
                      simp at ha hb ⊢
                      exact ih bs cs' hcs n ha hb

theorem exMap_ok_getElem (f : Cell α → Except AErr (Cell α))
    (l l' : List (Cell α)) (h : exMap f l = .ok l') (i : Nat) (c : Cell α)
    (hc : l[i]? = some c) :
    ∃ c', f c = .ok c' ∧ l'[i]? = some c' := by
  induction l generalizing l' i with
  | nil => simp at hc
  | cons a as ih =>
      unfold exMap at h
      cases hf : f a with
      | error e => rw [hf] at h; simp at h
      | ok a' =>
          rw [hf] at h
          cases hm : exMap f as with
          | error e => rw [hm] at h; simp at h
          | ok l'' =>
              rw [hm] at h
              simp at h
              subst h
              cases i with
              | zero =>
                  simp at hc
                  subst hc
                  exact ⟨a', hf, by simp⟩
              | succ n =>
                  simp at hc ⊢
                  exact ih l'' hm n hc

/-- Inversion of a successful `deriveAll` into its three steps. -/
theorem deriveAll_ok_inv (t d : Table α) (h : deriveAll t = .ok d) :
    ∃ t1 t2, deriveBasement t = .ok t1 ∧ deriveAge t1 = .ok t2 ∧
      deriveRenov t2 = .ok d := by
  unfold deriveAll at h
  split at h
  · simp at h
  · rename_i t1 h1
    split at h
    · simp at h
    · rename_i t2 h2
      exact ⟨t1, t2, h1, h2, h⟩

/-- Inversion of a successful `deriveBasement` when both inputs exist. -/
theorem deriveBasement_ok_pos (t u : Table α)
    (hl : hasCol t colSqftLiving = true) (ha : hasCol t colSqftAbove = true)
    (h : deriveBasement t = .ok u) :
    ∃ cs, subCells (colCells t colSqftLiving) (colCells t colSqftAbove)
        = .ok cs ∧
      u = setCol t colSqftBasement
        ⟨subDtype (dtypeOf t colSqftLiving) (dtypeOf t colSqftAbove), cs⟩ := by
  unfold deriveBasement at h
  rw [hl, ha] at h
  simp only [Bool.and_self, if_true] at h
  cases hcs : subCells (colCells t colSqftLiving) (colCells t colSqftAbove) with
  | error e => rw [hcs] at h; simp at h
  | ok cs =>
      rw [hcs] at h
      simp at h
      exact ⟨cs, rfl, h.symm⟩

/-- Inversion of a successful `deriveRenov` when `yr_renovated` exists. -/
theorem deriveRenov_ok_pos (t u : Table α)
    (hr : hasCol t colYrRenovated = true) (h : deriveRenov t = .ok u) :
    ∃ cs, exMap renovCell (colCells t colYrRenovated) = .ok cs ∧
      u = setCol t colWasRenovated ⟨.i64, cs⟩ := by
  unfold deriveRenov at h
  rw [hr] at h
  simp only [if_true] at h
  cases hcs : exMap renovCell (colCells t colYrRenovated) with
  | error e => rw [hcs] at h; simp at h
  | ok cs =>
      rw [hcs] at h
      simp at h
      exact ⟨cs, rfl, h.symm⟩

/-- `deriveAge` leaves every column other than `house_age` unchanged. -/
theorem colCells_deriveAge_ne (t u : Table α) (n : String)
    (h : deriveAge t = .ok u) (hn : colHouseAge ≠ n) :
    colCells u n = colCells t n := by
  unfold deriveAge at h
  by_cases h1 : (hasCol t colYrBuilt && hasCol t colYrSold) = true
  · rw [h1] at h
    simp only [if_true] at h
    cases hcs : subCells (colCells t colYrSold) (colCells t colYrBuilt) with
    | error e => rw [hcs] at h; simp at h
    | ok cs =>
        rw [hcs] at h
        simp at h
        rw [← h, colCells_setCol_ne t colHouseAge n _ hn]
  · rw [Bool.not_eq_true] at h1
    rw [h1] at h
    simp only [Bool.false_eq_true, if_false] at h
    by_cases h2 : hasCol t colYrBuilt = true
    · rw [h2] at h
      simp only [if_true] at h
      cases hcs : exMap (scalarSubCell 2025) (colCells t colYrBuilt) with
      | error e => rw [hcs] at h; simp at h
      | ok cs =>
          rw [hcs] at h
          simp at h
          rw [← h, colCells_setCol_ne t colHouseAge n _ hn]
    · rw [Bool.not_eq_true] at h2
      rw [h2] at h
      simp only [Bool.false_eq_true, if_false] at h
      simp at h
      rw [h]

/-- `deriveRenov` leaves every column other than `was_renovated`
unchanged. -/
theorem colCells_deriveRenov_ne (t u : Table α) (n : String)
    (h : deriveRenov t = .ok u) (hn : colWasRenovated ≠ n) :
    colCells u n = colCells t n := by
  unfold deriveRenov at h
  by_cases h1 : hasCol t colYrRenovated = true
  · rw [h1] at h
    simp only [if_true] at h
    cases hcs : exMap renovCell (colCells t colYrRenovated) with
    | error e => rw [hcs] at h; simp at h
    | ok cs =>
        rw [hcs] at h
        simp at h
        rw [← h, colCells_setCol_ne t colWasRenovated n _ hn]
  · rw [Bool.not_eq_true] at h1
    rw [h1] at h
    simp only [Bool.false_eq_true, if_false] at h
    simp at h
    rw [h]

/-- `deriveBasement` preserves column presence. -/
theorem hasCol_mono_deriveBasement (t u : Table α) (n : String)
    (h : deriveBasement t = .ok u) (hn : hasCol t n = true) :
    hasCol u n = true := by
  unfold deriveBasement at h
  by_cases h1 : (hasCol t colSqftLiving && hasCol t colSqftAbove) = true
  · rw [h1] at h
    simp only [if_true] at h
    cases hcs : subCells (colCells t colSqftLiving) (colCells t colSqftAbove)
        with
    | error e => rw [hcs] at h; simp at h
    | ok cs =>
        rw [hcs] at h
        simp at h
        rw [← h]
        exact hasCol_setCol_of t _ n _ hn
  · rw [Bool.not_eq_true] at h1
    rw [h1] at h
    simp only [Bool.false_eq_true, if_false] at h
    simp at h
    rw [← h]
    exact hn

/-- `deriveAge` preserves column presence. -/
theorem hasCol_mono_deriveAge (t u : Table α) (n : String)
    (h : deriveAge t = .ok u) (hn : hasCol t n = true) :
    hasCol u n = true := by
  unfold deriveAge at h
  by_cases h1 : (hasCol t colYrBuilt && hasCol t colYrSold) = true
  · rw [h1] at h
    simp only [if_true] at h
    cases hcs : subCells (colCells t colYrSold) (colCells t colYrBuilt) with
    | error e => rw [hcs] at h; simp at h
    | ok cs =>
        rw [hcs] at h
        simp at h
        rw [← h]
        exact hasCol_setCol_of t _ n _ hn
  · rw [Bool.not_eq_true] at h1
    rw [h1] at h
    simp only [Bool.false_eq_true, if_false] at h
    by_cases h2 : hasCol t colYrBuilt = true
    · rw [h2] at h
      simp only [if_true] at h
      cases hcs : exMap (scalarSubCell 2025) (colCells t colYrBuilt) with
      | error e => rw [hcs] at h; simp at h
      | ok cs =>
          rw [hcs] at h
          simp at h
          rw [← h]
          exact hasCol_setCol_of t _ n _ hn
    · rw [Bool.not_eq_true] at h2
      rw [h2] at h
      simp only [Bool.false_eq_true, if_false] at h
      simp at h
      rw [← h]
      exact hn

end DeriveLemmas

section ScalingEval

theorem listMean_single (x : ℝ) : listMean [x] = x := by
  simp [listMean]

theorem popVar_single (x : ℝ) : popVar [x] = 0 := by
  simp [popVar, listMean]

theorem scaleOf_single (x : ℝ) : scaleOf [x] = 1 := by
  simp [scaleOf, popVar_single]

theorem listMean_pair (x y : ℝ) : listMean [x, y] = (x + y) / 2 := by
  simp [listMean]

theorem popVar_pair (x y : ℝ) : popVar [x, y] = ((x - y) / 2) ^ 2 := by
  simp [popVar, listMean_pair]
  ring

theorem scaleOf_pop (l : List ℝ) (v : ℝ) (hv : popVar l = v)
    (hnz : ¬v = 0) : scaleOf l = Real.sqrt v := by
  unfold scaleOf
  rw [hv, if_neg hnz]

theorem sqrt_four : Real.sqrt 4 = 2 := by
  rw [show (4 : ℝ) = 2 ^ 2 by norm_num, Real.sqrt_sq (by norm_num)]

end ScalingEval

section ClaimC3

/-- Input table for the C3 counterexample. -/
def c3In : Table ℝ :=
  [(colSqftLiving, ⟨.f64, [.num 0, .num 2]⟩),
   (colSqftAbove, ⟨.f64, [.num 2, .num 0]⟩)]

/-- The derivation stage's output on `c3In` (before standardization). -/
def c3D : Table ℝ :=
  [(colSqftLiving, ⟨.f64, [.num 0, .num 2]⟩),
   (colSqftAbove, ⟨.f64, [.num 2, .num 0]⟩),
   (colSqftBasement, ⟨.f64, [.num ((0 : ℝ) - 2), .num ((2 : ℝ) - 0)]⟩)]

/-- Counterexample for C3 as stated: on `c3In` the returned table of
`add_features` has, in row 0, `sqft_basement = -1` but
`sqft_living - sqft_above = -1 - 1 = -2` - step 4's per-column
standardization destroys the exact equation that held after step 1. -/
theorem C3_counterexample :
    ∃ out, add_features c3In = .ok out ∧
      (colCells out colSqftLiving)[0]? = some (Cell.num (-1 : ℝ)) ∧
      (colCells out colSqftAbove)[0]? = some (Cell.num (1 : ℝ)) ∧
      (colCells out colSqftBasement)[0]? = some (Cell.num (-1 : ℝ)) ∧
      Cell.num (-1 : ℝ) ≠ Cell.num ((-1 : ℝ) - 1) := by
  have hmL : listMean [(0 : ℝ), 2] = 1 := by rw [listMean_pair]; norm_num
  have hvL : popVar [(0 : ℝ), 2] = 1 := by rw [popVar_pair]; norm_num
  have hsL : scaleOf [(0 : ℝ), 2] = 1 := by
    rw [scaleOf_pop _ 1 hvL (by norm_num), Real.sqrt_one]
  have hmA : listMean [(2 : ℝ), 0] = 1 := by rw [listMean_pair]; norm_num
  have hvA : popVar [(2 : ℝ), 0] = 1 := by rw [popVar_pair]; norm_num
  have hsA : scaleOf [(2 : ℝ), 0] = 1 := by
    rw [scaleOf_pop _ 1 hvA (by norm_num), Real.sqrt_one]
  have hmB : listMean [(0 : ℝ) - 2, 2 - 0] = 0 := by
    rw [listMean_pair]; norm_num
  have hvB : popVar [(0 : ℝ) - 2, 2 - 0] = 4 := by
    rw [popVar_pair]; norm_num
  have hsB : scaleOf [(0 : ℝ) - 2, 2 - 0] = 2 := by
    rw [scaleOf_pop _ 4 hvB (by norm_num), sqrt_four]
  refine ⟨mapCols scaleColFn c3D, ?_, ?_, ?_, ?_, ?_⟩
  · simp only [add_features, show deriveAll c3In = .ok c3D from rfl]
    rfl
  · rw [show (colCells (mapCols scaleColFn c3D) colSqftLiving)[0]? =
        some (Cell.num (((0 : ℝ) - listMean [(0 : ℝ), 2]) /
          scaleOf [(0 : ℝ), 2])) from rfl]
    rw [hmL, hsL]
    norm_num
  · rw [show (colCells (mapCols scaleColFn c3D) colSqftAbove)[0]? =
        some (Cell.num (((2 : ℝ) - listMean [(2 : ℝ), 0]) /
          scaleOf [(2 : ℝ), 0])) from rfl]
    rw [hmA, hsA]
    norm_num
  · rw [show (colCells (mapCols scaleColFn c3D) colSqftBasement)[0]? =
        some (Cell.num ((((0 : ℝ) - 2) - listMean [(0 : ℝ) - 2, 2 - 0]) /
          scaleOf [(0 : ℝ) - 2, 2 - 0])) from rfl]
    rw [hmB, hsB]
    norm_num
  · intro h
    injection h with h'
    norm_num at h'

/-- C3 (amended): the equation `sqft_basement = sqft_living -
sqft_above` holds exactly for every row of the derivation stage's
output, i.e. in the table produced by steps 1-3, before the
standardization of step 4 rescales the three columns. -/
theorem C3_basement_equation_before_scaling (t d : Table ℝ)
    (hl : hasCol t colSqftLiving = true) (ha : hasCol t colSqftAbove = true)
    (hd : deriveAll t = .ok d) (i : Nat) (x y : ℝ)
    (hx : (colCells d colSqftLiving)[i]? = some (.num x))
    (hy : (colCells d colSqftAbove)[i]? = some (.num y)) :
    (colCells d colSqftBasement)[i]? = some (.num (x - y)) := by
  rcases deriveAll_ok_inv t d hd with ⟨t1, t2, h1, h2, h3⟩
  rcases deriveBasement_ok_pos t t1 hl ha h1 with ⟨cs, hcs, rfl⟩
  have e1 : colCells d colSqftLiving = colCells t colSqftLiving := by
    rw [colCells_deriveRenov_ne t2 d colSqftLiving h3 (by decide),
      colCells_deriveAge_ne _ t2 colSqftLiving h2 (by decide)]
    exact colCells_setCol_ne t colSqftBasement colSqftLiving _ (by decide)
  have e2 : colCells d colSqftAbove = colCells t colSqftAbove := by
    rw [colCells_deriveRenov_ne t2 d colSqftAbove h3 (by decide),
      colCells_deriveAge_ne _ t2 colSqftAbove h2 (by decide)]
    exact colCells_setCol_ne t colSqftBasement colSqftAbove _ (by decide)
  have e3 : colCells d colSqftBasement = cs := by
    rw [colCells_deriveRenov_ne t2 d colSqftBasement h3 (by decide),
      colCells_deriveAge_ne _ t2 colSqftBasement h2 (by decide)]
    exact colCells_setCol_self t colSqftBasement _
  rw [e1] at hx
  rw [e2] at hy
  rw [e3]
  exact subCells_ok_getElem _ _ cs hcs i x y hx hy

/-- Input table for the C3 witness. -/
def c3wIn : Table ℝ :=
  [(colSqftLiving, ⟨.f64, [.num 2]⟩), (colSqftAbove, ⟨.f64, [.num 1]⟩)]

/-- Derivation output on `c3wIn`. -/
def c3wD : Table ℝ :=
  [(colSqftLiving, ⟨.f64, [.num 2]⟩), (colSqftAbove, ⟨.f64, [.num 1]⟩),
   (colSqftBasement, ⟨.f64, [.num ((2 : ℝ) - 1)]⟩)]

/-- Witness for the amended C3 at a concrete table. -/
theorem C3_witness :
    hasCol c3wIn colSqftLiving = true ∧ hasCol c3wIn colSqftAbove = true ∧
      deriveAll c3wIn = .ok c3wD ∧
      (colCells c3wD colSqftBasement)[0]? = some (Cell.num ((2 : ℝ) - 1)) :=
  ⟨rfl, rfl, rfl,
    C3_basement_equation_before_scaling c3wIn c3wD rfl rfl rfl 0 2 1 rfl rfl⟩

end ClaimC3

section ClaimC4

/-- Modelled from the claim's words: the intended `was_renovated`
value - 1 when `yr_renovated` is strictly positive, 0 otherwise, with
a missing value counting as not-greater-than-0. -/
noncomputable def renovTruth (c : Cell ℝ) : ℝ :=
  match c with
  | .num x => if 0 < x then 1 else 0
  | _ => 0

/-- Input table for the C4 counterexample. -/
def c4In : Table ℝ := [(colYrRenovated, ⟨.i64, [.num 5]⟩)]

/-- Derivation output on `c4In`. -/
def c4D : Table ℝ :=
  [(colYrRenovated, ⟨.i64, [.num 5]⟩),
   (colWasRenovated, ⟨.i64, [.num 1]⟩)]

/-- Counterexample for C4 as stated: on `c4In`, row 0 has
`yr_renovated = 5 > 0`, yet in the table `add_features` returns,
`was_renovated` is 0, not 1 - the constant 0/1 column is rescaled to
zero by step 4's standardization (`_handle_zeros_in_scale` sets the
zero-variance scale to 1 and centering subtracts the mean 1). -/
theorem C4_counterexample :
    (colCells c4In colYrRenovated)[0]? = some (Cell.num (5 : ℝ)) ∧
      (0 : ℝ) < 5 ∧
      ∃ out, add_features c4In = .ok out ∧
        (colCells out colWasRenovated)[0]? = some (Cell.num (0 : ℝ)) ∧
        Cell.num (0 : ℝ) ≠ Cell.num (1 : ℝ) := by
  have h1 : renovCell (Cell.num (5 : ℝ)) = .ok (.num 1) := by
    unfold renovCell
    norm_num
  have h4 : exMap renovCell [Cell.num (5 : ℝ)] = .ok [.num 1] := by
    simp only [exMap, h1]
  have h5 : deriveRenov c4In = .ok c4D := by
    unfold deriveRenov
    rw [show colCells c4In colYrRenovated = [Cell.num (5 : ℝ)] from rfl]
    rw [h4]
    rfl
  have hd : deriveAll c4In = .ok c4D := by
    simp only [deriveAll, show deriveBasement c4In = .ok c4In from rfl,
      show deriveAge c4In = .ok c4In from rfl, h5]
  refine ⟨rfl, by norm_num, mapCols scaleColFn c4D, ?_, ?_, ?_⟩
  · simp only [add_features, hd]
    rfl
  · rw [show (colCells (mapCols scaleColFn c4D) colWasRenovated)[0]? =
        some (Cell.num (((1 : ℝ) - listMean [(1 : ℝ)]) /
          scaleOf [(1 : ℝ)])) from rfl]
    rw [listMean_single, scaleOf_single]
    norm_num
  · intro h
    injection h with h'
    norm_num at h'

/-- C4 (amended): in the derivation stage's output - before step 4's
standardization rescales the column - `was_renovated` is exactly 1 in
each row whose `yr_renovated` is strictly greater than 0 and exactly 0
otherwise, a missing `yr_renovated` counting as not-greater-than-0. -/
theorem C4_was_renovated_before_scaling (t d : Table ℝ)
    (hr : hasCol t colYrRenovated = true) (hd : deriveAll t = .ok d)
    (i : Nat) (c : Cell ℝ)
    (hc : (colCells d colYrRenovated)[i]? = some c) :
    (colCells d colWasRenovated)[i]? = some (.num (renovTruth c)) := by
  rcases deriveAll_ok_inv t d hd with ⟨t1, t2, h1, h2, h3⟩
  have hr2 : hasCol t2 colYrRenovated = true :=
    hasCol_mono_deriveAge t1 t2 _ h2
      (hasCol_mono_deriveBasement t t1 _ h1 hr)
  rcases deriveRenov_ok_pos t2 d hr2 h3 with ⟨cs, hcs, rfl⟩
  rw [colCells_setCol_ne t2 colWasRenovated colYrRenovated _ (by decide)]
    at hc
  rw [colCells_setCol_self t2 colWasRenovated _]
  rcases exMap_ok_getElem renovCell _ cs hcs i c hc with ⟨c', hfc, hcs'⟩
  rw [hcs']
  cases c with
  | num x =>
      simp only [renovCell] at hfc
      simp at hfc
      rw [← hfc]
      rfl
  | na =>
      simp only [renovCell] at hfc
      simp at hfc
      rw [← hfc]
      rfl
  | str v => simp [renovCell] at hfc

/-- Input table for the C4 witness: one renovated and one
never-renovated row. -/
def c4wIn : Table ℝ := [(colYrRenovated, ⟨.f64, [.num 5, .na]⟩)]

/-- Derivation output on `c4wIn`. -/
noncomputable def c4wD : Table ℝ :=
  [(colYrRenovated, ⟨.f64, [.num 5, .na]⟩),
   (colWasRenovated, ⟨.i64, [.num (if (0 : ℝ) < 5 then 1 else 0), .num 0]⟩)]

/-- Witness for the amended C4 at a concrete table. -/
theorem C4_witness :
    hasCol c4wIn colYrRenovated = true ∧ deriveAll c4wIn = .ok c4wD ∧
      (colCells c4wD colWasRenovated)[1]? =
        some (Cell.num (renovTruth Cell.na)) :=
  ⟨rfl, rfl, C4_was_renovated_before_scaling c4wIn c4wD rfl rfl 1 .na rfl⟩

end ClaimC4

section WellFormed

variable {α : Type}

/-- The cell is a number (the only cells an `int64` column can hold). -/
def cellIsNum : Cell α → Bool
  | .num _ => true
  | _ => false

/-- The cell is a number or NaN (what a `float64` column can hold). -/
def cellNumNa : Cell α → Bool
  | .num _ => true
  | .na => true
  | _ => false

/-- Well-typedness of a column with respect to its dtype: `int64`
columns hold only numbers, `float64` columns hold numbers or NaN,
`object` columns are unconstrained.  Every pandas frame satisfies
this. -/
def Col.numOk (c : Col α) : Bool :=
  match c.dt with
  | .i64 => c.cells.all cellIsNum
  | .f64 => c.cells.all cellNumNa
  | .obj => true

/-- Well-typedness of a table: every column is well-typed. -/
def wfT (t : Table α) : Bool :=
  t.all (fun p => p.2.numOk)

/-- The column labels, in order. -/
def names (t : Table α) : List String :=
  t.map (fun p => p.1)

theorem cellNumNa_of_cellIsNum (c : Cell α) (h : cellIsNum c = true) :
    cellNumNa c = true := by
  cases c <;> simp [cellIsNum, cellNumNa] at h ⊢

theorem all_numNa_of_all_isNum (l : List (Cell α))
    (h : l.all cellIsNum = true) : l.all cellNumNa = true := by
  rw [List.all_eq_true] at h ⊢
  exact fun c hc => cellNumNa_of_cellIsNum c (h c hc)

theorem numOk_of_getCol? (t : Table α) (n : String) (c : Col α)
    (hw : wfT t = true) (hg : getCol? t n = some c) : c.numOk = true := by
  unfold getCol? at hg
  cases hf : t.find? (fun p => p.1 = n) with
  | none => rw [hf] at hg; simp at hg
  | some p =>
      rw [hf] at hg
      simp at hg
      rw [wfT, List.all_eq_true] at hw
      rw [← hg]
      exact hw p (List.mem_of_find?_eq_some hf)

theorem wfT_setCol (t : Table α) (n : String) (c : Col α)
    (hw : wfT t = true) (hc : c.numOk = true) :
    wfT (setCol t n c) = true := by
  induction t with
  | nil => simp [setCol, wfT, hc]
  | cons p rest ih =>
      simp only [wfT, List.all_cons, Bool.and_eq_true] at hw
      by_cases hn : p.1 = n
      · cases p with
        | mk m d =>
            simp at hn
            simp [setCol, hn, wfT, List.all_cons, hc]
            simp only [wfT, List.all_eq_true] at hw ⊢
            exact fun a b hab => hw.2 (a, b) hab
      · cases p with
        | mk m d =>
            simp at hn
            simp only [setCol, if_neg hn]
            rw [wfT, List.all_cons, Bool.and_eq_true]
            exact ⟨hw.1, ih hw.2⟩

/-- The numeric-or-NaN well-typing facts about a named column. -/
theorem colCells_wf_i64 [LinearOrderedField α] (t : Table α) (n : String) (hw : wfT t = true)
    (hd : dtypeOf t n = .i64) : (colCells t n).all cellIsNum = true := by
  cases hg : getCol? t n with
  | none => rw [colCells, hg]; rfl
  | some c =>
      rw [colCells_of_getCol? t n c hg]
      have := numOk_of_getCol? t n c hw hg
      rw [dtypeOf, hg] at hd
      simp at hd
      simp only [Col.numOk, hd] at this
      exact this

theorem colCells_wf_f64 [LinearOrderedField α] (t : Table α) (n : String) (hw : wfT t = true)
    (hd : dtypeOf t n = .f64) : (colCells t n).all cellNumNa = true := by
  cases hg : getCol? t n with
  | none => rw [colCells, hg]; rfl
  | some c =>
      rw [colCells_of_getCol? t n c hg]
      have := numOk_of_getCol? t n c hw hg
      rw [dtypeOf, hg] at hd
      simp at hd
      simp only [Col.numOk, hd] at this
      exact this

theorem colCells_numNa [LinearOrderedField α] (t : Table α) (n : String) (hw : wfT t = true)
    (hd : dtypeOf t n = .i64 ∨ dtypeOf t n = .f64) :
    (colCells t n).all cellNumNa = true := by
  rcases hd with hd | hd
  · exact all_numNa_of_all_isNum _ (colCells_wf_i64 t n hw hd)
  · exact colCells_wf_f64 t n hw hd

end WellFormed

section WfPreservation

variable {α : Type} [LinearOrderedField α]

theorem subCells_all_numNa (as bs cs : List (Cell α))
    (ha : as.all cellNumNa = true) (hb : bs.all cellNumNa = true)
    (h : subCells as bs = .ok cs) : cs.all cellNumNa = true := by
  induction as generalizing bs cs with
  | nil => simp [subCells] at h; subst h; rfl
  | cons a as ih =>
      cases bs with
      | nil => simp [subCells] at h; subst h; rfl
      | cons b bs =>
          rw [List.all_cons, Bool.and_eq_true] at ha hb
          unfold subCells at h
          cases hc : cellSub a b with
          | error e => rw [hc] at h; simp at h
          | ok c =>
              rw [hc] at h
              cases hcs : subCells as bs with
              | error e => rw [hcs] at h; simp at h
              | ok cs' =>
                  rw [hcs] at h
                  simp at h
                  subst h
                  rw [List.all_cons, Bool.and_eq_true]
                  refine ⟨?_, ih bs cs' ha.2 hb.2 hcs⟩
                  cases a with
                  | num x =>
                      cases b with
                      | num y => simp [cellSub] at hc; simp [← hc, cellNumNa]
                      | na => simp [cellSub] at hc; simp [← hc, cellNumNa]
                      | str v => simp [cellNumNa] at hb
                  | na =>
                      cases b with
                      | num y => simp [cellSub] at hc; simp [← hc, cellNumNa]
                      | na => simp [cellSub] at hc; simp [← hc, cellNumNa]
                      | str v =>
                          exact absurd hb.1 (by simp [cellNumNa])
                  | str v =>
                      exact absurd ha.1 (by simp [cellNumNa])

theorem subCells_all_isNum (as bs cs : List (Cell α))
    (ha : as.all cellIsNum = true) (hb : bs.all cellIsNum = true)
    (h : subCells as bs = .ok cs) : cs.all cellIsNum = true := by
  induction as generalizing bs cs with
  | nil => simp [subCells] at h; subst h; rfl
  | cons a as ih =>
      cases bs with
      | nil => simp [subCells] at h; subst h; rfl
      | cons b bs =>
          rw [List.all_cons, Bool.and_eq_true] at ha hb
          unfold subCells at h
          cases hc : cellSub a b with
          | error e => rw [hc] at h; simp at h
          | ok c =>
              rw [hc] at h
              cases hcs : subCells as bs with
              | error e => rw [hcs] at h; simp at h
              | ok cs' =>
                  rw [hcs] at h
                  simp at h
                  subst h
                  rw [List.all_cons, Bool.and_eq_true]
                  refine ⟨?_, ih bs cs' ha.2 hb.2 hcs⟩
                  cases a with
                  | num x =>
                      cases b with
                      | num y => simp [cellSub] at hc; simp [← hc, cellIsNum]
                      | na => exact absurd hb.1 (by simp [cellIsNum])
                      | str v => exact absurd hb.1 (by simp [cellIsNum])
                  | na => exact absurd ha.1 (by simp [cellIsNum])
                  | str v => exact absurd ha.1 (by simp [cellIsNum])

theorem exMap_scalarSub_all (k : α) (l cs : List (Cell α))
    (h : exMap (scalarSubCell k) l = .ok cs) :
    (l.all cellIsNum = true → cs.all cellIsNum = true) ∧
      (l.all cellNumNa = true → cs.all cellNumNa = true) := by
  induction l generalizing cs with
  | nil => simp [exMap] at h; subst h; simp
  | cons a as ih =>
      unfold exMap at h
      cases hf : scalarSubCell k a with
      | error e => rw [hf] at h; simp at h
      | ok a' =>
          rw [hf] at h
          cases hm : exMap (scalarSubCell k) as with
          | error e => rw [hm] at h; simp at h
          | ok cs' =>
              rw [hm] at h
              simp at h
              subst h
              constructor
              · intro hl
                rw [List.all_cons, Bool.and_eq_true] at hl
                rw [List.all_cons, Bool.and_eq_true]
                refine ⟨?_, (ih cs' hm).1 hl.2⟩
                cases a with
                | num x => simp [scalarSubCell] at hf; simp [← hf, cellIsNum]
                | na => exact absurd hl.1 (by simp [cellIsNum])
                | str v => exact absurd hl.1 (by simp [cellIsNum])
              · intro hl
                rw [List.all_cons, Bool.and_eq_true] at hl
                rw [List.all_cons, Bool.and_eq_true]
                refine ⟨?_, (ih cs' hm).2 hl.2⟩
                cases a with
                | num x => simp [scalarSubCell] at hf; simp [← hf, cellNumNa]
                | na => simp [scalarSubCell] at hf; simp [← hf, cellNumNa]
                | str v => exact absurd hl.1 (by simp [cellNumNa])

theorem exMap_renov_all_isNum (l cs : List (Cell α))
    (h : exMap renovCell l = .ok cs) : cs.all cellIsNum = true := by
  induction l generalizing cs with
  | nil => simp [exMap] at h; subst h; rfl
  | cons a as ih =>
      unfold exMap at h
      cases hf : renovCell a with
      | error e => rw [hf] at h; simp at h
      | ok a' =>
          rw [hf] at h
          cases hm : exMap renovCell as with
          | error e => rw [hm] at h; simp at h
          | ok cs' =>
              rw [hm] at h
              simp at h
              subst h
              rw [List.all_cons, Bool.and_eq_true]
              refine ⟨?_, ih cs' hm⟩
              cases a with
              | num x => simp [renovCell] at hf; simp [← hf, cellIsNum]
              | na => simp [renovCell] at hf; simp [← hf, cellIsNum]
              | str v => simp [renovCell] at hf

/-- The column produced by series subtraction is well-typed for its
inferred dtype. -/
theorem subCol_numOk (t : Table α) (n1 n2 : String)
    (cs : List (Cell α)) (hw : wfT t = true)
    (h : subCells (colCells t n1) (colCells t n2) = .ok cs) :
    Col.numOk ⟨subDtype (dtypeOf t n1) (dtypeOf t n2), cs⟩ = true := by
  cases hd1 : dtypeOf t n1 with
  | obj => simp [Col.numOk, subDtype]
  | i64 =>
      cases hd2 : dtypeOf t n2 with
      | obj => simp [Col.numOk, subDtype]
      | i64 =>
          simp only [Col.numOk, subDtype]
          exact subCells_all_isNum _ _ cs (colCells_wf_i64 t n1 hw hd1)
            (colCells_wf_i64 t n2 hw hd2) h
      | f64 =>
          simp only [Col.numOk, subDtype]
          exact subCells_all_numNa _ _ cs
            (colCells_numNa t n1 hw (Or.inl hd1))
            (colCells_numNa t n2 hw (Or.inr hd2)) h
  | f64 =>
      cases hd2 : dtypeOf t n2 with
      | obj => simp [Col.numOk, subDtype]
      | i64 =>
          simp only [Col.numOk, subDtype]
          exact subCells_all_numNa _ _ cs
            (colCells_numNa t n1 hw (Or.inr hd1))
            (colCells_numNa t n2 hw (Or.inl hd2)) h
      | f64 =>
          simp only [Col.numOk, subDtype]
          exact subCells_all_numNa _ _ cs
            (colCells_numNa t n1 hw (Or.inr hd1))
            (colCells_numNa t n2 hw (Or.inr hd2)) h

theorem wfT_deriveBasement (t u : Table α) (hw : wfT t = true)
    (h : deriveBasement t = .ok u) : wfT u = true := by
  unfold deriveBasement at h
  by_cases h1 : (hasCol t colSqftLiving && hasCol t colSqftAbove) = true
  · rw [h1] at h
    simp only [if_true] at h
    cases hcs : subCells (colCells t colSqftLiving) (colCells t colSqftAbove)
        with
    | error e => rw [hcs] at h; simp at h
    | ok cs =>
        rw [hcs] at h
        simp at h
        rw [← h]
        exact wfT_setCol t _ _ hw (subCol_numOk t _ _ cs hw hcs)
  · rw [Bool.not_eq_true] at h1
    rw [h1] at h
    simp only [Bool.false_eq_true, if_false] at h
    simp at h
    rw [← h]
    exact hw

theorem wfT_deriveAge (t u : Table α) (hw : wfT t = true)
    (h : deriveAge t = .ok u) : wfT u = true := by
  unfold deriveAge at h
  by_cases h1 : (hasCol t colYrBuilt && hasCol t colYrSold) = true
  · rw [h1] at h
    simp only [if_true] at h
    cases hcs : subCells (colCells t colYrSold) (colCells t colYrBuilt) with
    | error e => rw [hcs] at h; simp at h
    | ok cs =>
        rw [hcs] at h
        simp at h
        rw [← h]
        exact wfT_setCol t _ _ hw (subCol_numOk t _ _ cs hw hcs)
  · rw [Bool.not_eq_true] at h1
    rw [h1] at h
    simp only [Bool.false_eq_true, if_false] at h
    by_cases h2 : hasCol t colYrBuilt = true
    · rw [h2] at h
      simp only [if_true] at h
      cases hcs : exMap (scalarSubCell 2025) (colCells t colYrBuilt) with
      | error e => rw [hcs] at h; simp at h
      | ok cs =>
          rw [hcs] at h
          simp at h
          rw [← h]
          refine wfT_setCol t _ _ hw ?_
          cases hd : dtypeOf t colYrBuilt with
          | obj => simp [Col.numOk]
          | i64 =>
              simp only [Col.numOk]
              exact (exMap_scalarSub_all 2025 _ cs hcs).1
                (colCells_wf_i64 t colYrBuilt hw hd)
          | f64 =>
              simp only [Col.numOk]
              exact (exMap_scalarSub_all 2025 _ cs hcs).2
                (colCells_wf_f64 t colYrBuilt hw hd)
    · rw [Bool.not_eq_true] at h2
      rw [h2] at h
      simp only [Bool.false_eq_true, if_false] at h
      simp at h
      rw [← h]
      exact hw

theorem wfT_deriveRenov (t u : Table α) (hw : wfT t = true)
    (h : deriveRenov t = .ok u) : wfT u = true := by
  unfold deriveRenov at h
  by_cases h1 : hasCol t colYrRenovated = true
  · rw [h1] at h
    simp only [if_true] at h
    cases hcs : exMap renovCell (colCells t colYrRenovated) with
    | error e => rw [hcs] at h; simp at h
    | ok cs =>
        rw [hcs] at h
        simp at h
        rw [← h]
        refine wfT_setCol t _ _ hw ?_
        simp only [Col.numOk]
        exact exMap_renov_all_isNum _ cs hcs
  · rw [Bool.not_eq_true] at h1
    rw [h1] at h
    simp only [Bool.false_eq_true, if_false] at h
    simp at h
    rw [← h]
    exact hw

theorem wfT_deriveAll (t d : Table α) (hw : wfT t = true)
    (h : deriveAll t = .ok d) : wfT d = true := by
  rcases deriveAll_ok_inv t d h with ⟨t1, t2, h1, h2, h3⟩
  exact wfT_deriveRenov t2 d (wfT_deriveAge t1 t2
    (wfT_deriveBasement t t1 hw h1) h2) h3

end WfPreservation

section ScalingMath

theorem sum_map_sub_const (l : List ℝ) (c : ℝ) :
    (l.map (fun x => x - c)).sum = l.sum - l.length * c := by
  induction l with
  | nil => simp
  | cons a as ih =>
      simp only [List.map_cons, List.sum_cons, List.length_cons, ih]
      push_cast
      ring

theorem sum_map_div (l : List ℝ) (s : ℝ) :
    (l.map (fun x => x / s)).sum = l.sum / s := by
  induction l with
  | nil => simp
  | cons a as ih =>
      simp only [List.map_cons, List.sum_cons, ih]
      ring

/-- Sum of a column centered at `μ` with `μ * n = sum`: exactly 0. -/
theorem centered_sum (l : List ℝ) (μ s : ℝ)
    (hμ : μ * l.length = l.sum) :
    (l.map (fun x => (x - μ) / s)).sum = 0 := by
  rw [show (fun x => (x - μ) / s) = (fun y => y / s) ∘ (fun x => x - μ)
    from rfl]
  rw [← List.map_map, sum_map_div, sum_map_sub_const]
  rw [mul_comm] at hμ
  rw [hμ]
  simp

theorem listMean_spec (l : List ℝ) : listMean l * l.length = l.sum := by
  cases l with
  | nil => simp [listMean]
  | cons a as =>
      unfold listMean
      rw [div_mul_cancel₀]
      push_cast [List.length_cons]
      positivity

/-- After centering at the list's own mean, the mean is 0 - whatever
the (even zero) divisor. -/
theorem scaled_col_mean (l : List ℝ) (s : ℝ) :
    listMean (l.map (fun x => (x - listMean l) / s)) = 0 := by
  have h := centered_sum l (listMean l) s (listMean_spec l)
  rw [show listMean (l.map (fun x => (x - listMean l) / s))
      = (l.map (fun x => (x - listMean l) / s)).sum /
        (l.map (fun x => (x - listMean l) / s)).length from rfl]
  rw [h]
  simp

theorem popVar_nonneg (l : List ℝ) : 0 ≤ popVar l := by
  unfold popVar
  apply div_nonneg
  · apply List.sum_nonneg
    intro x hx
    rcases List.mem_map.mp hx with ⟨y, _, rfl⟩
    positivity
  · positivity

/-- After standardizing by the fitted scale, the population variance is
exactly 1 whenever the original variance was nonzero. -/
theorem scaled_col_var (l : List ℝ) (hv : popVar l ≠ 0) :
    popVar (l.map (fun x => (x - listMean l) / scaleOf l)) = 1 := by
  have hs2 : scaleOf l ^ 2 = popVar l := by
    unfold scaleOf
    rw [if_neg hv]
    exact Real.sq_sqrt (popVar_nonneg l)
  set L := l.map (fun x => (x - listMean l) / scaleOf l) with hL
  have hm : listMean L = 0 := scaled_col_mean l (scaleOf l)
  have h1 : popVar L
      = (L.map (fun x => (x - listMean L) ^ 2)).sum / L.length := rfl
  rw [h1, hm, hL, List.map_map, List.length_map]
  rw [show ((fun x => (x - 0) ^ 2) ∘ fun x => (x - listMean l) / scaleOf l)
      = (fun y => y / scaleOf l ^ 2) ∘ (fun x => (x - listMean l) ^ 2)
    from by funext x; simp [div_pow]]
  rw [← List.map_map, sum_map_div, div_right_comm]
  rw [show (l.map (fun x => (x - listMean l) ^ 2)).sum / (l.length : ℝ)
      = popVar l from rfl]
  rw [hs2, div_self hv]

/-- `numVals` commutes with the scaler's per-cell transform on columns
without string cells. -/
theorem numVals_map_scale (cells : List (Cell ℝ)) (μ s : ℝ)
    (hw : cells.all cellNumNa = true) :
    numVals (cells.map (scaleCellR μ s)) =
      (numVals cells).map (fun x => (x - μ) / s) := by
  induction cells with
  | nil => rfl
  | cons c cs ih =>
      rw [List.all_cons, Bool.and_eq_true] at hw
      cases c with
      | num x => simp [scaleCellR, numVals, ih hw.2]
      | na => simp [scaleCellR, numVals, ih hw.2]
      | str v => exact absurd hw.1 (by simp [cellNumNa])

/-- The scaler's action on a well-typed numeric column: mean exactly 0
and (for nonzero variance) standard deviation exactly 1 over the
numeric entries. -/
theorem scaleColFn_numeric (c : Col ℝ) (hnum : isNumericDt c.dt = true)
    (hwc : c.numOk = true) :
    listMean (numVals (scaleColFn c).cells) = 0 ∧
      (popVar (numVals c.cells) ≠ 0 →
        Real.sqrt (popVar (numVals (scaleColFn c).cells)) = 1) := by
  have hna : c.cells.all cellNumNa = true := by
    cases hdt : c.dt with
    | i64 =>
        simp only [Col.numOk, hdt] at hwc
        exact all_numNa_of_all_isNum _ hwc
    | f64 =>
        simp only [Col.numOk, hdt] at hwc
        exact hwc
    | obj => rw [hdt] at hnum; simp [isNumericDt] at hnum
  unfold scaleColFn
  rw [if_pos hnum]
  simp only
  rw [numVals_map_scale c.cells _ _ hna]
  constructor
  · exact scaled_col_mean (numVals c.cells) _
  · intro hv
    rw [scaled_col_var (numVals c.cells) hv, Real.sqrt_one]

theorem mapCols_getElem? {α : Type} (f : Col α → Col α) (t : Table α)
    (i : Nat) :
    (mapCols f t)[i]? = (t[i]?).map (fun p => (p.1, f p.2)) := by
  simp [mapCols]

theorem numOk_of_getElem? {α : Type} (t : Table α) (i : Nat)
    (n : String) (c : Col α) (hw : wfT t = true)
    (hg : t[i]? = some (n, c)) : c.numOk = true := by
  rw [wfT, List.all_eq_true] at hw
  have hmem : (n, c) ∈ t := by
    rcases List.getElem?_eq_some.mp hg with ⟨hlt, hEq⟩
    rw [← hEq]
    exact List.getElem_mem hlt
  exact hw (n, c) hmem

theorem scaleTable_ok_inv (t u : Table ℝ) (h : scaleTable t = .ok u) :
    u = mapCols scaleColFn t := by
  unfold scaleTable at h
  by_cases hg : ((numericCols t).isEmpty || nrows t == 0) = true
  · rw [if_pos hg] at h; simp at h
  · rw [if_neg hg] at h
    simp at h
    exact h.symm

theorem add_features_ok_inv (t out : Table ℝ)
    (h : add_features t = .ok out) :
    ∃ d, deriveAll t = .ok d ∧ scaleTable d = .ok out := by
  unfold add_features at h
  split at h
  · simp at h
  · rename_i d hd
    exact ⟨d, hd, h⟩

end ScalingMath

section ClaimC5

/-- C5: for every well-typed input table, in the table returned by
`add_features` every column identified as numeric (dtype `int64` or
`float64` when the scaler selects columns, after the derivation steps)
has mean exactly 0 over its numeric entries and - excluding
zero-variance columns - standard deviation exactly 1 (population
statistics, which is the standardizer's own definition; NaN entries
are disregarded exactly as `StandardScaler` disregards them when
fitting); columns not identified as numeric pass through the
standardization step unchanged. -/
theorem C5_standardized_columns (t out : Table ℝ)
    (hw : wfT t = true) (h : add_features t = .ok out) :
    ∃ d, deriveAll t = .ok d ∧ out = mapCols scaleColFn d ∧
      ∀ (i : Nat) (n : String) (c : Col ℝ), d[i]? = some (n, c) →
        (isNumericDt c.dt = true →
          ∃ c', out[i]? = some (n, c') ∧
            listMean (numVals c'.cells) = 0 ∧
            (popVar (numVals c.cells) ≠ 0 →
              Real.sqrt (popVar (numVals c'.cells)) = 1)) ∧
        (isNumericDt c.dt = false → out[i]? = some (n, c)) := by
  rcases add_features_ok_inv t out h with ⟨d, hd, hsc⟩
  have hout : out = mapCols scaleColFn d := scaleTable_ok_inv d out hsc
  have hwd : wfT d = true := wfT_deriveAll t d hw hd
  refine ⟨d, hd, hout, ?_⟩
  intro i n c hi
  have hoi : out[i]? = some (n, scaleColFn c) := by
    rw [hout, mapCols_getElem?, hi]
    rfl
  constructor
  · intro hnum
    exact ⟨scaleColFn c, hoi,
      scaleColFn_numeric c hnum (numOk_of_getElem? d i n c hwd hi)⟩
  · intro hnum
    rw [hoi]
    rw [show scaleColFn c = c from by
      unfold scaleColFn
      rw [if_neg (by simp [hnum])]]

/-- Input table for the C5 witness. -/
def c5In : Table ℝ := [(colPrice, ⟨.f64, [.num 3]⟩)]

/-- Witness for C5 at a concrete table. -/
theorem C5_witness :
    wfT c5In = true ∧
      (∃ d, deriveAll c5In = .ok d ∧
        mapCols scaleColFn c5In = mapCols scaleColFn d ∧
        ∀ (i : Nat) (n : String) (c : Col ℝ), d[i]? = some (n, c) →
          (isNumericDt c.dt = true →
            ∃ c', (mapCols scaleColFn c5In)[i]? = some (n, c') ∧
              listMean (numVals c'.cells) = 0 ∧
              (popVar (numVals c.cells) ≠ 0 →
                Real.sqrt (popVar (numVals c'.cells)) = 1)) ∧
          (isNumericDt c.dt = false →
            (mapCols scaleColFn c5In)[i]? = some (n, c))) :=
  ⟨rfl, C5_standardized_columns c5In (mapCols scaleColFn c5In) rfl
    (by simp only [add_features, show deriveAll c5In = .ok c5In from rfl]
        rfl)⟩

end ClaimC5

end Anneliese
